import Mathlib

/-!
Verification of the snakeoil `osutils` module (path normalization,
`ensure_dirs`, `FsLock`, `fallback_access`) against its natural-language
specification.  Python strings are modelled as `List Char`; the operating
system is modelled by explicit oracles (`Env`, `LockEnv`) supplying the
results of each syscall, and every syscall performed is recorded in a trace.
-/

set_option autoImplicit false

namespace Snakeoil

/-- Python strings (byte strings of the source) are modelled as `List Char`. -/
abbrev PyStr := List Char

/-- Embedding of Python `str.split('/')`: splits on every `'/'`, keeping
empty pieces, as `"a//b".split('/') == ['a', '', 'b']`. -/
def splitSlash : PyStr → List PyStr
  | [] => [[]]
  | c :: cs =>
    match splitSlash cs with
    | [] => [[]]
    | s :: ss => if c = '/' then [] :: s :: ss else (c :: s) :: ss

/-- Embedding of Python `'/'.join(comps)`. -/
def joinSlash : List PyStr → PyStr
  | [] => []
  | [s] => s
  | s :: ss => s ++ '/' :: joinSlash ss

/-- Embedding of `posixpath.join(a, b)` (two-argument form), used by the
source as `join`/`native_join` and inside `abspath`. -/
def pathJoin (a b : PyStr) : PyStr :=
  if b.head? = some '/' then b
  else if a = [] ∨ a.getLast? = some '/' then a ++ b
  else a ++ '/' :: b

/-- Embedding of the `initial_slashes` computation of `posixpath.normpath`:
`0` when the path is relative, `2` when it starts with exactly two slashes,
`1` otherwise (POSIX treats three or more leading slashes as one); the
`startswith` tests are rendered with `List.take`. -/
def initialSlashes (p : PyStr) : Nat :=
  if p.take 1 = ['/'] then
    if p.take 2 = ['/', '/'] ∧ p.take 3 ≠ ['/', '/', '/'] then 2 else 1
  else 0

/-- Embedding of the component loop of `posixpath.normpath`: `acc` is the
`new_comps` list; a component is skipped when empty or `'.'`, appended when
it is not `'..'` (or when `'..'` may legitimately stay), and otherwise pops
the previous component. -/
def normLoop (initSlashes : Nat) : List PyStr → List PyStr → List PyStr
  | [], acc => acc
  | comp :: cs, acc =>
    if comp = [] ∨ comp = ['.'] then normLoop initSlashes cs acc
    else if comp ≠ ['.', '.'] ∨ (initSlashes = 0 ∧ acc = []) ∨
        acc.getLast? = some ['.', '.'] then
      normLoop initSlashes cs (acc ++ [comp])
    else if acc ≠ [] then normLoop initSlashes cs acc.dropLast
    else normLoop initSlashes cs acc

/-- Embedding of `posixpath.normpath` (Python 2 standard library), the
`os.path.normpath` the source builds on. -/
def posix_normpath (p : PyStr) : PyStr :=
  if p = [] then ['.']
  else
    let isl := initialSlashes p
    let newComps := normLoop isl (splitSlash p) []
    let joined := List.replicate isl '/' ++ joinSlash newComps
    if joined = [] then ['.'] else joined

/-- Embedding of `native_normpath` from the source: `os.path.normpath`,
then a leading `'//'` is collapsed to `'/'` (`newpath[1:]`). -/
def native_normpath (p : PyStr) : PyStr :=
  let np := posix_normpath p
  if np.take 2 = ['/', '/'] then np.drop 1 else np

/-- Embedding of `posixpath.abspath` with the current working directory
supplied explicitly: a relative path is joined to `cwd`, then normalized. -/
def py_abspath (cwd p : PyStr) : PyStr :=
  if p.head? = some '/' then posix_normpath p
  else posix_normpath (pathJoin cwd p)

/-- Normal form of the component list produced by `normLoop` on a relative
path: a run of `'..'` components followed by components that are not `'..'`. -/
def RelShape (L : List PyStr) : Prop :=
  ∃ k M, L = List.replicate k ['.', '.'] ++ M ∧ ∀ c ∈ M, c ≠ ['.', '.']

/-! ### Filesystem syscall model for `ensure_dirs`

The operating system is abstracted into an oracle `Env` giving the outcome
of the n-th call of each kind; every call performed, with its arguments and
outcome, is appended to a trace. -/

/-- Snapshot of the fields of `os.stat` the source consults. -/
structure StatT where
  st_mode : Nat
  st_uid : Nat
  st_gid : Nat
deriving DecidableEq, Repr

/-- Embedding of `stat.S_ISDIR(mode)`: file-type bits equal `S_IFDIR`. -/
def isDir (m : Nat) : Bool := (m &&& 0o170000) = 0o040000

/-- Outcome of an `os.mkdir` call: success, `EEXIST`, or another `OSError`. -/
inductive MkdirRes where
  | ok
  | eexist
  | err
deriving DecidableEq, Repr

/-- One performed syscall together with its outcome. -/
inductive Event where
  | statE (path : PyStr) (r : Option StatT)
  | chmodE (path : PyStr) (mode : Nat) (ok : Bool)
  | chownE (path : PyStr) (uid gid : Int) (ok : Bool)
  | mkdirE (path : PyStr) (mode : Nat) (r : MkdirRes)
  | umaskE (arg ret : Nat)
deriving DecidableEq, Repr

/-- Oracle for syscall outcomes: the n-th call of each kind receives the
indicated response (`Option StatT` for `stat`, success flag for
`chmod`/`chown`, `MkdirRes` for `mkdir`); `umaskPrior` is the process
umask in force before `os.umask(0)`. -/
structure Env where
  statR : Nat → Option StatT
  chmodR : Nat → Bool
  chownR : Nat → Bool
  mkdirR : Nat → MkdirRes
  umaskPrior : Nat

/-- Per-invocation syscall counters and the trace of performed calls. -/
structure OSState where
  statN : Nat
  chmodN : Nat
  chownN : Nat
  mkdirN : Nat
  umaskN : Nat
  trace : List Event
deriving DecidableEq, Repr

/-- The initial syscall state: no calls made yet. -/
def OSState.init : OSState := ⟨0, 0, 0, 0, 0, []⟩

/-- Perform `os.stat(p)`: consult the oracle, record the event. -/
def doStat (env : Env) (s : OSState) (p : PyStr) : Option StatT × OSState :=
  let r := env.statR s.statN
  (r, { s with statN := s.statN + 1, trace := s.trace ++ [Event.statE p r] })

/-- Perform `os.chmod(p, mode)`: `true` means success, `false` an `OSError`. -/
def doChmod (env : Env) (s : OSState) (p : PyStr) (mode : Nat) : Bool × OSState :=
  let r := env.chmodR s.chmodN
  (r, { s with chmodN := s.chmodN + 1, trace := s.trace ++ [Event.chmodE p mode r] })

/-- Perform `os.chown(p, uid, gid)`. -/
def doChown (env : Env) (s : OSState) (p : PyStr) (uid gid : Int) : Bool × OSState :=
  let r := env.chownR s.chownN
  (r, { s with chownN := s.chownN + 1, trace := s.trace ++ [Event.chownE p uid gid r] })

/-- Perform `os.mkdir(p, mode)`. -/
def doMkdir (env : Env) (s : OSState) (p : PyStr) (mode : Nat) : MkdirRes × OSState :=
  let r := env.mkdirR s.mkdirN
  (r, { s with mkdirN := s.mkdirN + 1, trace := s.trace ++ [Event.mkdirE p mode r] })

/-- Perform `os.umask(arg)`, returning the previous umask: the first call
returns the oracle's prior value, the restoring call returns the `0` set by
the first call. -/
def doUmask (env : Env) (s : OSState) (arg : Nat) : Nat × OSState :=
  let r := if s.umaskN = 0 then env.umaskPrior else 0
  (r, { s with umaskN := s.umaskN + 1, trace := s.trace ++ [Event.umaskE arg r] })

/-- Embedding of `_safe_mkdir(path, mode)` from the source: `mkdir`;
`EEXIST` is tolerated when a subsequent `stat` shows a directory; the
`stat` itself raising propagates as an `OSError` (`Except.error`). -/
def safe_mkdir (env : Env) (s : OSState) (p : PyStr) (mode : Nat) :
    Except Unit Bool × OSState :=
  let (r, s) := doMkdir env s p mode
  match r with
  | MkdirRes.ok => (Except.ok true, s)
  | MkdirRes.err => (Except.ok false, s)
  | MkdirRes.eexist =>
    let (st?, s) := doStat env s p
    match st? with
    | none => (Except.error (), s)
    | some st => (Except.ok (isDir st.st_mode), s)

/-- The loop-invariant arguments of the `ensure_dirs` segment walk:
target path `apath`, the requested final `mode` (`fmode`), `uid`/`gid`,
and `force_temp_perms` (the source's `(mode & 0300) != 0300`). -/
structure WalkCtx where
  apath : PyStr
  fmode : Nat
  uid : Int
  gid : Int
  forceTemp : Bool
deriving DecidableEq, Repr

/-- Result of one iteration of the segment walk. -/
structure StepRes where
  ok : Bool
  sticky : Bool
  base : PyStr
  resets : List (PyStr × Nat)
  s : OSState

/-- Embedding of one iteration of the `for directory in apath.split(os.path.sep)`
loop of `ensure_dirs` (source lines 121-153): `base = join(base, directory)`;
an existing entry must be a directory, an existing intermediate lacking
owner `+wx` is chmod'ed to add `0300` with a reset of its original mode
recorded, and the sticky flag is recomputed as `st.st_gid & stat.S_ISGID`;
a missing entry is created via `_safe_mkdir` (mode `0700` plus reset when
`force_temp_perms`, else the requested mode, with a sticky reset for the
final segment and an immediate `chown` when `uid`/`gid` are given). -/
def walkStep (env : Env) (ctx : WalkCtx) (d base0 : PyStr) (sticky : Bool)
    (resets : List (PyStr × Nat)) (s : OSState) : StepRes :=
  let base := pathJoin base0 d
  let (st?, s) := doStat env s base
  match st? with
  | some st =>
    if ¬ isDir st.st_mode then ⟨false, sticky, base, resets, s⟩
    else if base ≠ ctx.apath then
      if (st.st_mode &&& 0o300) ≠ 0o300 then
        let (okc, s) := doChmod env s base (st.st_mode ||| 0o300)
        if okc then
          ⟨true, (st.st_gid &&& 0o2000) != 0, base, resets ++ [(base, st.st_mode)], s⟩
        else ⟨false, sticky, base, resets, s⟩
      else ⟨true, (st.st_gid &&& 0o2000) != 0, base, resets, s⟩
    else ⟨true, sticky, base, resets, s⟩
  | none =>
    if ctx.forceTemp then
      match safe_mkdir env s base 0o700 with
      | (Except.error _, s) => ⟨false, sticky, base, resets, s⟩
      | (Except.ok false, s) => ⟨false, sticky, base, resets, s⟩
      | (Except.ok true, s) => ⟨true, sticky, base, resets ++ [(base, ctx.fmode)], s⟩
    else
      match safe_mkdir env s base ctx.fmode with
      | (Except.error _, s) => ⟨false, sticky, base, resets, s⟩
      | (Except.ok false, s) => ⟨false, sticky, base, resets, s⟩
      | (Except.ok true, s) =>
        let resets := if base = ctx.apath ∧ sticky = true then
          resets ++ [(base, ctx.fmode)] else resets
        if ctx.gid ≠ -1 ∨ ctx.uid ≠ -1 then
          let (okc, s) := doChown env s base ctx.uid ctx.gid
          if okc then ⟨true, sticky, base, resets, s⟩
          else ⟨false, sticky, base, resets, s⟩
        else ⟨true, sticky, base, resets, s⟩

/-- The whole segment walk: iterate `walkStep` over the split components,
stopping (result `false`) at the first failed step. -/
def walkLoop (env : Env) (ctx : WalkCtx) :
    List PyStr → PyStr → Bool → List (PyStr × Nat) → OSState →
    Bool × PyStr × List (PyStr × Nat) × OSState
  | [], base, _, resets, s => (true, base, resets, s)
  | d :: ds, base, sticky, resets, s =>
    let r := walkStep env ctx d base sticky resets s
    if r.ok then walkLoop env ctx ds r.base r.sticky r.resets r.s
    else (false, r.base, r.resets, r.s)

/-- Embedding of the drain loop `for base, m in reversed(resets): os.chmod(base, m)`
(called here on the already-reversed list); the Python loop rebinds `base`,
so the path of the last entry processed is threaded through and returned. -/
def drainLoop (env : Env) : List (PyStr × Nat) → PyStr → OSState →
    Bool × PyStr × OSState
  | [], base, s => (true, base, s)
  | (p, m) :: rest, _base, s =>
    let (okc, s) := doChmod env s p m
    if okc then drainLoop env rest p s else (false, p, s)

/-- Embedding of the cleanup phase of `ensure_dirs` (source lines 155-161):
drain the recorded resets in reverse order, then `chown` the (rebound)
`base` when `uid` or `gid` was given; any failure yields `false`. -/
def finishPhase (env : Env) (ctx : WalkCtx) (resets : List (PyStr × Nat))
    (wbase : PyStr) (s : OSState) : Bool × OSState :=
  match drainLoop env resets.reverse wbase s with
  | (false, _, s) => (false, s)
  | (true, base, s) =>
    if ctx.uid ≠ -1 ∨ ctx.gid ≠ -1 then
      let (okc, s) := doChown env s base ctx.uid ctx.gid
      (okc, s)
    else (true, s)

/-- Embedding of the `else` (fast) branch of `ensure_dirs`: the initial
`os.stat(path)` succeeded, so ownership is adjusted when it differs and the
mode is OR'ed in (`minimal`) or set exactly; no directory check is made. -/
def fastPath (env : Env) (path : PyStr) (st : StatT) (gid uid : Int)
    (mode : Nat) (minimal : Bool) (s : OSState) : Bool × OSState :=
  let chmodStep := fun (s : OSState) =>
    if minimal then
      if mode ≠ (st.st_mode &&& mode) then doChmod env s path (st.st_mode ||| mode)
      else (true, s)
    else if mode ≠ (st.st_mode &&& 0o7777) then doChmod env s path mode
    else (true, s)
  if (gid ≠ -1 ∧ gid ≠ (st.st_gid : Int)) ∨ (uid ≠ -1 ∧ uid ≠ (st.st_uid : Int)) then
    let (okc, s) := doChown env s path uid gid
    if okc then chmodStep s else (false, s)
  else chmodStep s

/-- The outcome of an `ensure_dirs` invocation: the returned boolean,
whether the segment-walk branch was taken (initial `stat` failed), the
final contents of the internal `resets` list, and the syscall state. -/
structure EDResult where
  ret : Bool
  tookWalk : Bool
  resets : List (PyStr × Nat)
  s : OSState
deriving DecidableEq, Repr

/-- The whole segment-walk branch of `ensure_dirs` (source lines 112-165,
after the umask has been set to `0`): walk the segments from the root
(`base` starts as `os.path.sep`), then on success drain the resets and
apply final ownership; in both cases restore the saved umask `um` before
returning.  Returns the result, the recorded resets, and the state. -/
def walkBranch (env : Env) (ctx : WalkCtx) (dirs : List PyStr) (s : OSState)
    (um : Nat) : Bool × List (PyStr × Nat) × OSState :=
  let (ok, wbase, resets, s) := walkLoop env ctx dirs ['/'] false [] s
  if ok then
    let (ok2, s) := finishPhase env ctx resets wbase s
    let (_, s) := doUmask env s um
    (ok2, resets, s)
  else
    let (_, s) := doUmask env s um
    (false, resets, s)

/-- The walk branch of `ensure_dirs` with its arguments as `ensure_dirs`
computes them: the context built from the normalized absolute path and the
requested mode, the split segments, the state after the initial failed
`stat` and the `os.umask(0)` call, and the saved prior umask. -/
def edWalk (env : Env) (cwd path : PyStr) (gid uid : Int) (mode : Nat) :
    Bool × List (PyStr × Nat) × OSState :=
  walkBranch env
    ⟨native_normpath (py_abspath cwd path), mode, uid, gid,
      (mode &&& 0o300) != 0o300⟩
    (splitSlash (native_normpath (py_abspath cwd path)))
    ⟨1, 0, 0, 0, 1, [Event.statE path none, Event.umaskE 0 env.umaskPrior]⟩
    env.umaskPrior

/-- Embedding of `ensure_dirs(path, gid, uid, mode, minimal)` with the
current working directory `cwd` supplied explicitly (used by
`os.path.abspath`).  The initial `stat` succeeding takes the fast branch;
otherwise the umask is set to `0` and the normalized absolute path is
walked by `walkBranch`. -/
def ensure_dirs (env : Env) (cwd path : PyStr) (gid uid : Int) (mode : Nat)
    (minimal : Bool) : EDResult :=
  let s := OSState.init
  let (st?, s) := doStat env s path
  match st? with
  | some st =>
    let (ok, s) := fastPath env path st gid uid mode minimal s
    ⟨ok, false, [], s⟩
  | none =>
    let (um, s) := doUmask env s 0
    let forceTemp := (mode &&& 0o300) != 0o300
    let apath := native_normpath (py_abspath cwd path)
    let ctx : WalkCtx := ⟨apath, mode, uid, gid, forceTemp⟩
    let (ok, resets, s) := walkBranch env ctx (splitSlash apath) s um
    ⟨ok, true, resets, s⟩

/-! ### `FsLock` model -/

/-- The lock error taxonomy of the source: `NonExistant` and
`GenericFailed` are the `LockException` subclasses raised by `FsLock`;
`ioError` stands for a raw `IOError` propagating uncaught (the blocking
`fcntl.flock` call is outside any try/except). -/
inductive LockErr where
  | nonExistant (path : PyStr)
  | genericFailed (path : PyStr)
  | ioError
deriving DecidableEq, Repr

/-- Outcome of an `fcntl.flock` call. -/
inductive FlockRes where
  | ok
  | eagain
  | err
deriving DecidableEq, Repr

/-- The flock operation requested (`LOCK_EX`, `LOCK_SH`, `LOCK_UN`). -/
inductive Flags where
  | lock_ex
  | lock_sh
  | lock_un
deriving DecidableEq, Repr

/-- Oracle for the lock syscalls: `openR` is the outcome of `os.open`
(`none` = `OSError`), `flockR fd flags nb` the outcome of
`fcntl.flock(fd, flags | (LOCK_NB if nb))`. -/
structure LockEnv where
  openR : Option Nat
  flockR : Nat → Flags → Bool → FlockRes

/-- The state of an `FsLock` handle: its path, the (lazily opened) file
descriptor, and the `create` flag. -/
structure FsLock where
  path : PyStr
  fd : Option Nat
  create : Bool
deriving DecidableEq, Repr

/-- Embedding of `FsLock._acquire_fd`: open the path (with `O_CREAT` when
`create`), yielding the new descriptor stored into `self.fd`; failure
raises `GenericFailed` when `create`, else `NonExistant`. -/
def acquire_fd (env : LockEnv) (l : FsLock) : Except LockErr Nat :=
  if l.create then
    match env.openR with
    | some fd => Except.ok fd
    | none => Except.error (LockErr.genericFailed l.path)
  else
    match env.openR with
    | some fd => Except.ok fd
    | none => Except.error (LockErr.nonExistant l.path)

/-- Embedding of `FsLock._enact_change(flags, blocking)`: lazily open the
descriptor, then `flock`.  Non-blocking: `EAGAIN` yields `false`, any other
`IOError` raises `GenericFailed`, success yields `true`.  Blocking: success
yields `true`, an `IOError` propagates raw. -/
def enact_change (env : LockEnv) (l : FsLock) (flags : Flags) (blocking : Bool) :
    Except LockErr (Bool × FsLock) :=
  match (match l.fd with
         | none => acquire_fd env l
         | some fd => Except.ok fd) with
  | Except.error e => Except.error e
  | Except.ok fd =>
    let l := { l with fd := some fd }
    if ¬ blocking then
      match env.flockR fd flags true with
      | FlockRes.eagain => Except.ok (false, l)
      | FlockRes.err => Except.error (LockErr.genericFailed l.path)
      | FlockRes.ok => Except.ok (true, l)
    else
      match env.flockR fd flags false with
      | FlockRes.ok => Except.ok (true, l)
      | _ => Except.error LockErr.ioError

/-- Embedding of `FsLock.acquire_write_lock(blocking)`. -/
def acquire_write_lock (env : LockEnv) (l : FsLock) (blocking : Bool) :
    Except LockErr (Bool × FsLock) :=
  enact_change env l Flags.lock_ex blocking

/-- Embedding of `FsLock.acquire_read_lock(blocking)`. -/
def acquire_read_lock (env : LockEnv) (l : FsLock) (blocking : Bool) :
    Except LockErr (Bool × FsLock) :=
  enact_change env l Flags.lock_sh blocking

/-- Embedding of `FsLock.release_write_lock`: `_enact_change(LOCK_UN, False)`
with its boolean result discarded. -/
def release_write_lock (env : LockEnv) (l : FsLock) : Except LockErr FsLock :=
  (enact_change env l Flags.lock_un false).map (fun r => r.2)

/-- Embedding of `FsLock.release_read_lock`: identical to
`release_write_lock` in the source. -/
def release_read_lock (env : LockEnv) (l : FsLock) : Except LockErr FsLock :=
  (enact_change env l Flags.lock_un false).map (fun r => r.2)

/-! ### `fallback_access` model -/

/-- Embedding of `fallback_access(path, mode)` with the syscall results
supplied explicitly: `st?` is the outcome of `os.lstat(path)` (`none` =
`EnvironmentError`), `uid` the result of `os.getuid()`, `groups` the result
of `os.getgroups()`.  `mode` uses the POSIX access bits `R_OK=4`, `W_OK=2`,
`X_OK=1`, `F_OK=0`. -/
def fallback_access (st? : Option StatT) (mode : Nat) (uid : Nat)
    (groups : List Nat) : Bool :=
  match st? with
  | none => false
  | some st =>
    if mode = 0 then true
    else if uid = 0 then
      let m := mode &&& 1
      if m = 0 then true
      else (st.st_mode &&& 73) != 0
    else if uid = st.st_uid then mode == (mode &&& ((st.st_mode >>> 6) &&& 0x7))
    else if st.st_gid ∈ groups then mode == (mode &&& ((st.st_mode >>> 3) &&& 0x7))
    else mode == (mode &&& (st.st_mode &&& 0x7))

/-! ### Concrete oracle environments used by the claim counterexamples -/

/-- A directory entry with mode `0755`, owned by root. -/
def stRoot : StatT := ⟨0o40755, 0, 0⟩

/-- A directory entry whose permission bits are owner-execute only
(`0100`): it lacks owner write, so the walk must loosen it. -/
def stX : StatT := ⟨0o40100, 0, 0⟩

/-- A regular-file entry with mode `0644`. -/
def stFile : StatT := ⟨0o100644, 0, 0⟩

/-- Oracle for the C1 counterexample: the target `/a/b` does not exist,
`/` is a normal directory, `/a` is a directory lacking owner `+wx`
(so a permission reset is recorded), and the final `mkdir` fails. -/
def envC1 : Env :=
  { statR := fun n =>
      match n with
      | 0 => none
      | 1 => some stRoot
      | 2 => some stX
      | _ => none
    chmodR := fun _ => true
    chownR := fun _ => true
    mkdirR := fun _ => MkdirRes.err
    umaskPrior := 0o22 }

/-- Oracle like `envC1` but whose `mkdir` succeeds, so the walk and the
drain complete: the successful-run companion of `envC1`. -/
def envC1ok : Env :=
  { statR := fun n =>
      match n with
      | 0 => none
      | 1 => some stRoot
      | 2 => some stX
      | _ => none
    chmodR := fun _ => true
    chownR := fun _ => true
    mkdirR := fun _ => MkdirRes.ok
    umaskPrior := 0o22 }

/-- Oracle where the target itself exists as a regular file: the initial
`stat` succeeds with `stFile`. -/
def envC2f : Env :=
  { statR := fun _ => some stFile
    chmodR := fun _ => true
    chownR := fun _ => true
    mkdirR := fun _ => MkdirRes.ok
    umaskPrior := 0o22 }

/-- A directory entry whose permission bits are owner write+execute only
(`0300`): it has the bits the walk requires, but lacks owner read. -/
def stWX : StatT := ⟨0o40300, 0, 0⟩

/-- Oracle for the C3 counterexample: `/` normal, `/a` a directory with
mode `0300` (owner `wx` but no read), `/a/b` absent and creatable. -/
def envC3 : Env :=
  { statR := fun n =>
      match n with
      | 0 => none
      | 1 => some stRoot
      | 2 => some stWX
      | _ => none
    chmodR := fun _ => true
    chownR := fun _ => true
    mkdirR := fun _ => MkdirRes.ok
    umaskPrior := 0o22 }

/-- An intermediate directory whose mode carries the set-group-id bit
(`02775`) but whose numeric group id (`100`) does not have bit `0o2000`. -/
def stSgidMode : StatT := ⟨0o42775, 0, 100⟩

/-- An intermediate directory whose mode lacks the set-group-id bit but
whose numeric group id (`0o2010`) happens to have bit `0o2000` set. -/
def stSgidGid : StatT := ⟨0o40775, 0, 0o2010⟩

/-- Oracle for C5: `/` normal, `/p` is `stSgidMode`, `/p/q` absent. -/
def envC5a : Env :=
  { statR := fun n =>
      match n with
      | 0 => none
      | 1 => some stRoot
      | 2 => some stSgidMode
      | _ => none
    chmodR := fun _ => true
    chownR := fun _ => true
    mkdirR := fun _ => MkdirRes.ok
    umaskPrior := 0o22 }

/-- Oracle for C5 with the gid-carries-the-bit parent `stSgidGid`. -/
def envC5b : Env :=
  { statR := fun n =>
      match n with
      | 0 => none
      | 1 => some stRoot
      | 2 => some stSgidGid
      | _ => none
    chmodR := fun _ => true
    chownR := fun _ => true
    mkdirR := fun _ => MkdirRes.ok
    umaskPrior := 0o22 }

/-- Oracle where the walk meets a regular file: the initial `stat` of the
target fails, `/` is a directory, and `/a` exists as the regular file
`stFile`. -/
def envC2w : Env :=
  { statR := fun n =>
      match n with
      | 0 => none
      | 1 => some stRoot
      | _ => some stFile
    chmodR := fun _ => true
    chownR := fun _ => true
    mkdirR := fun _ => MkdirRes.ok
    umaskPrior := 0o22 }

/-- Oracle for exercising a single `walkStep` on an absent segment:
every `stat` fails, `mkdir` succeeds. -/
def envWS : Env :=
  { statR := fun _ => none
    chmodR := fun _ => true
    chownR := fun _ => true
    mkdirR := fun _ => MkdirRes.ok
    umaskPrior := 0 }

/-- Lock oracle where opening the lock file fails with an `OSError`. -/
def lockEnvNoOpen : LockEnv :=
  { openR := none, flockR := fun _ _ _ => FlockRes.ok }

/-- Lock oracle where opening succeeds with descriptor `3` and every
`flock` succeeds. -/
def lockEnvOpen3 : LockEnv :=
  { openR := some 3, flockR := fun _ _ _ => FlockRes.ok }

/-- Lock oracle where every `flock` reports `EAGAIN` (lock held elsewhere). -/
def lockEnvEagain : LockEnv :=
  { openR := some 7, flockR := fun _ _ _ => FlockRes.eagain }

/-! ### Path normalization lemmas (towards claims C8 and C9) -/

example : native_normpath ("//usr//local/../bin".toList) = "/usr/bin".toList := by decide
example : native_normpath ("/usr/portage/./foon/../blah/".toList) = "/usr/portage/blah".toList := by decide
example : native_normpath ("".toList) = ".".toList := by decide
example : native_normpath ("//".toList) = "/".toList := by decide
example : native_normpath ("///x".toList) = "/x".toList := by decide
example : native_normpath ("../..//a".toList) = "../../a".toList := by decide

theorem splitSlash_ne_nil : ∀ p : PyStr, splitSlash p ≠ []
  | [] => by simp [splitSlash]
  | c :: cs => by
    rcases h : splitSlash cs with _ | ⟨s, ss⟩
    · exact absurd h (splitSlash_ne_nil cs)
    · simp only [splitSlash, h]
      split <;> simp

theorem mem_splitSlash_no_slash : ∀ (p : PyStr) (c : PyStr), c ∈ splitSlash p → '/' ∉ c
  | [], c, hc => by
    simp [splitSlash] at hc
    simp [hc]
  | ch :: cs, c, hc => by
    rcases h : splitSlash cs with _ | ⟨s, ss⟩
    · exact absurd h (splitSlash_ne_nil cs)
    · simp only [splitSlash, h] at hc
      by_cases hch : ch = '/'
      · rw [if_pos hch] at hc
        rcases List.mem_cons.mp hc with hc1 | hc1
        · simp [hc1]
        · exact mem_splitSlash_no_slash cs c (h ▸ hc1)
      · rw [if_neg hch] at hc
        rcases List.mem_cons.mp hc with hc1 | hc1
        · subst hc1
          intro hmem
          rcases List.mem_cons.mp hmem with h1 | h1
          · exact hch h1.symm
          · exact mem_splitSlash_no_slash cs s (h ▸ List.mem_cons_self s ss) h1
        · exact mem_splitSlash_no_slash cs c (h ▸ List.mem_cons_of_mem s hc1)

theorem splitSlash_cons_slash (p : PyStr) : splitSlash ('/' :: p) = [] :: splitSlash p := by
  rcases h : splitSlash p with _ | ⟨s, ss⟩
  · exact absurd h (splitSlash_ne_nil p)
  · simp [splitSlash, h]

theorem splitSlash_append : ∀ (a p : PyStr), '/' ∉ a →
    ∀ t ts, splitSlash p = t :: ts → splitSlash (a ++ p) = (a ++ t) :: ts
  | [], p, _, t, ts, h => by simpa using h
  | c :: a', p, ha, t, ts, h => by
    have hc : c ≠ '/' := fun hh => ha (hh ▸ List.mem_cons_self c a')
    have ha' : '/' ∉ a' := fun hh => ha (List.mem_cons_of_mem c hh)
    have ih := splitSlash_append a' p ha' t ts h
    simp only [List.cons_append, splitSlash, List.append_eq]
    rw [ih]
    simp [hc]

theorem splitSlash_joinSlash : ∀ (L : List PyStr), L ≠ [] → (∀ c ∈ L, '/' ∉ c) →
    splitSlash (joinSlash L) = L
  | [], h, _ => absurd rfl h
  | [s], _, hL => by
    have hs : '/' ∉ s := hL s (List.mem_cons_self s [])
    have := splitSlash_append s [] hs [] [] (by simp [splitSlash])
    simpa [joinSlash] using this
  | s :: t :: ts, _, hL => by
    have hs : '/' ∉ s := hL s (List.mem_cons_self ..)
    have htts : ∀ c ∈ t :: ts, '/' ∉ c := fun c hc => hL c (List.mem_cons_of_mem s hc)
    have ih := splitSlash_joinSlash (t :: ts) (by simp) htts
    have hsl : splitSlash ('/' :: joinSlash (t :: ts)) = [] :: t :: ts := by
      rw [splitSlash_cons_slash, ih]
    have := splitSlash_append s ('/' :: joinSlash (t :: ts)) hs [] (t :: ts) hsl
    simpa [joinSlash] using this

theorem joinSlash_cons (c : PyStr) (cs : List PyStr) :
    joinSlash (c :: cs) = c ∨ joinSlash (c :: cs) = c ++ '/' :: joinSlash cs := by
  cases cs with
  | nil => left; rfl
  | cons t ts => right; rfl

theorem joinSlash_cons_ex (c : PyStr) (cs : List PyStr) :
    ∃ r, joinSlash (c :: cs) = c ++ r ∧ (r = [] ∨ ∃ r', r = '/' :: r') := by
  rcases joinSlash_cons c cs with h | h
  · exact ⟨[], by simpa using h, Or.inl rfl⟩
  · exact ⟨'/' :: joinSlash cs, h, Or.inr ⟨joinSlash cs, rfl⟩⟩

theorem normLoop_plain (isl : Nat) : ∀ (L acc : List PyStr),
    (∀ c ∈ L, c ≠ [] ∧ c ≠ ['.'] ∧ c ≠ ['.', '.']) →
    normLoop isl L acc = acc ++ L
  | [], acc, _ => by simp [normLoop]
  | comp :: cs, acc, h => by
    obtain ⟨h1, h2, h3⟩ := h comp (List.mem_cons_self ..)
    have ih := normLoop_plain isl cs (acc ++ [comp])
      (fun c hc => h c (List.mem_cons_of_mem _ hc))
    simp only [normLoop]
    rw [if_neg (by simp [h1, h2]), if_pos (Or.inl h3), ih]
    simp

theorem normLoop_dots : ∀ (k : Nat) (M acc : List PyStr),
    (∀ c ∈ M, c ≠ [] ∧ c ≠ ['.'] ∧ c ≠ ['.', '.']) →
    (acc = [] ∨ acc.getLast? = some ['.', '.']) →
    normLoop 0 (List.replicate k ['.', '.'] ++ M) acc =
      acc ++ List.replicate k ['.', '.'] ++ M
  | 0, M, acc, hM, _ => by simpa using normLoop_plain 0 M acc hM
  | k + 1, M, acc, hM, hacc => by
    have ih := normLoop_dots k M (acc ++ [['.', '.']]) hM (Or.inr (by simp))
    simp only [List.replicate_succ, List.cons_append, normLoop, List.append_eq]
    rw [if_neg (by simp), if_pos ?side, ih]
    case side => rcases hacc with h | h <;> simp [h]
    simp

theorem normLoop_mem (isl : Nat) : ∀ (L acc : List PyStr) (c : PyStr),
    c ∈ normLoop isl L acc → c ∈ acc ∨ c ∈ L
  | [], acc, c, hc => Or.inl (by simpa [normLoop] using hc)
  | comp :: cs, acc, c, hc => by
    simp only [normLoop] at hc
    by_cases h1 : comp = [] ∨ comp = ['.']
    · rw [if_pos h1] at hc
      rcases normLoop_mem isl cs acc c hc with h | h
      · exact Or.inl h
      · exact Or.inr (List.mem_cons_of_mem _ h)
    · rw [if_neg h1] at hc
      by_cases h2 : comp ≠ ['.', '.'] ∨ (isl = 0 ∧ acc = []) ∨
          acc.getLast? = some ['.', '.']
      · rw [if_pos h2] at hc
        rcases normLoop_mem isl cs (acc ++ [comp]) c hc with h | h
        · rcases List.mem_append.mp h with h' | h'
          · exact Or.inl h'
          · simp at h'
            exact Or.inr (h' ▸ List.mem_cons_self ..)
        · exact Or.inr (List.mem_cons_of_mem _ h)
      · rw [if_neg h2] at hc
        by_cases h3 : acc ≠ []
        · rw [if_pos h3] at hc
          rcases normLoop_mem isl cs acc.dropLast c hc with h | h
          · exact Or.inl (List.mem_of_mem_dropLast h)
          · exact Or.inr (List.mem_cons_of_mem _ h)
        · rw [if_neg h3] at hc
          rcases normLoop_mem isl cs acc c hc with h | h
          · exact Or.inl h
          · exact Or.inr (List.mem_cons_of_mem _ h)

theorem normLoop_basic (isl : Nat) : ∀ (L acc : List PyStr),
    (∀ c ∈ acc, c ≠ [] ∧ c ≠ ['.']) →
    ∀ c ∈ normLoop isl L acc, c ≠ [] ∧ c ≠ ['.']
  | [], acc, hacc, c, hc => by
    simp only [normLoop] at hc
    exact hacc c hc
  | comp :: cs, acc, hacc, c, hc => by
    simp only [normLoop] at hc
    by_cases h1 : comp = [] ∨ comp = ['.']
    · rw [if_pos h1] at hc
      exact normLoop_basic isl cs acc hacc c hc
    · rw [if_neg h1] at hc
      push_neg at h1
      by_cases h2 : comp ≠ ['.', '.'] ∨ (isl = 0 ∧ acc = []) ∨
          acc.getLast? = some ['.', '.']
      · rw [if_pos h2] at hc
        refine normLoop_basic isl cs (acc ++ [comp]) ?_ c hc
        intro c' hc'
        rcases List.mem_append.mp hc' with h' | h'
        · exact hacc c' h'
        · simp at h'
          exact h' ▸ ⟨h1.1, h1.2⟩
      · rw [if_neg h2] at hc
        by_cases h3 : acc ≠ []
        · rw [if_pos h3] at hc
          exact normLoop_basic isl cs acc.dropLast
            (fun c' hc' => hacc c' (List.mem_of_mem_dropLast hc')) c hc
        · rw [if_neg h3] at hc
          exact normLoop_basic isl cs acc hacc c hc

theorem normLoop_abs (isl : Nat) (hisl : isl ≠ 0) : ∀ (L acc : List PyStr),
    (∀ c ∈ acc, c ≠ ['.', '.']) →
    ∀ c ∈ normLoop isl L acc, c ≠ ['.', '.']
  | [], acc, hacc, c, hc => by
    simp only [normLoop] at hc
    exact hacc c hc
  | comp :: cs, acc, hacc, c, hc => by
    simp only [normLoop] at hc
    by_cases h1 : comp = [] ∨ comp = ['.']
    · rw [if_pos h1] at hc
      exact normLoop_abs isl hisl cs acc hacc c hc
    · rw [if_neg h1] at hc
      by_cases h2 : comp ≠ ['.', '.'] ∨ (isl = 0 ∧ acc = []) ∨
          acc.getLast? = some ['.', '.']
      · rw [if_pos h2] at hc
        refine normLoop_abs isl hisl cs (acc ++ [comp]) ?_ c hc
        intro c' hc'
        rcases List.mem_append.mp hc' with h' | h'
        · exact hacc c' h'
        · simp at h'
          subst h'
          rcases h2 with h | h | h
          · exact h
          · exact absurd h.1 hisl
          · obtain ⟨hne, heq⟩ := List.mem_getLast?_eq_getLast h
            exact absurd (heq ▸ List.getLast_mem hne) (by
              intro hm
              exact hacc _ hm rfl)
      · rw [if_neg h2] at hc
        by_cases h3 : acc ≠ []
        · rw [if_pos h3] at hc
          exact normLoop_abs isl hisl cs acc.dropLast
            (fun c' hc' => hacc c' (List.mem_of_mem_dropLast hc')) c hc
        · rw [if_neg h3] at hc
          exact normLoop_abs isl hisl cs acc hacc c hc

theorem normLoop_rel : ∀ (L acc : List PyStr), RelShape acc →
    RelShape (normLoop 0 L acc)
  | [], acc, hacc => by simpa [normLoop] using hacc
  | comp :: cs, acc, hacc => by
    simp only [normLoop]
    by_cases h1 : comp = [] ∨ comp = ['.']
    · rw [if_pos h1]
      exact normLoop_rel cs acc hacc
    · rw [if_neg h1]
      by_cases h2 : comp ≠ ['.', '.'] ∨ (True ∧ acc = []) ∨
          acc.getLast? = some ['.', '.']
      · rw [if_pos h2]
        refine normLoop_rel cs (acc ++ [comp]) ?_
        obtain ⟨k, M, hshape, hM⟩ := hacc
        by_cases hdd : comp = ['.', '.']
        · subst hdd
          rcases h2 with h | h | h
          · exact absurd rfl h
          · exact ⟨1, [], by simp [h.2], by simp⟩
          · have hM0 : M = [] := by
              by_contra hMne
              rw [hshape, List.getLast?_append_of_ne_nil _ hMne] at h
              obtain ⟨hne, heq⟩ := List.mem_getLast?_eq_getLast h
              exact hM _ (heq ▸ List.getLast_mem hne) rfl
            refine ⟨k + 1, [], ?_, by simp⟩
            rw [hshape, hM0, List.replicate_succ']
            simp
        · refine ⟨k, M ++ [comp], ?_, ?_⟩
          · rw [hshape]
            simp [List.append_assoc]
          · intro c hc
            rcases List.mem_append.mp hc with h' | h'
            · exact hM c h'
            · simp at h'
              subst h'
              exact hdd
      · rw [if_neg h2]
        by_cases h3 : acc ≠ []
        · rw [if_pos h3]
          refine normLoop_rel cs acc.dropLast ?_
          push_neg at h2
          obtain ⟨hcomp, hne2, hlast⟩ := h2
          obtain ⟨k, M, hshape, hM⟩ := hacc
          have hM0 : M ≠ [] := by
            intro hM0
            rw [hM0, List.append_nil] at hshape
            have hk : k ≠ 0 := by
              intro hk
              rw [hk] at hshape
              simp at hshape
              exact h3 hshape
            obtain ⟨k', rfl⟩ : ∃ k', k = k' + 1 := ⟨k - 1, by omega⟩
            rw [hshape, List.replicate_succ', List.getLast?_concat] at hlast
            exact hlast rfl
          refine ⟨k, M.dropLast, ?_, fun c hc => hM c (List.mem_of_mem_dropLast hc)⟩
          rw [hshape, List.dropLast_append_of_ne_nil _ hM0]
        · rw [if_neg h3]
          exact normLoop_rel cs acc hacc

theorem initialSlashes_cases (p : PyStr) :
    initialSlashes p = 0 ∨ initialSlashes p = 1 ∨ initialSlashes p = 2 := by
  unfold initialSlashes
  split_ifs <;> simp

theorem initialSlashes_nonslash (c : Char) (cs : PyStr) (h : c ≠ '/') :
    initialSlashes (c :: cs) = 0 := by
  simp [initialSlashes, h]

theorem initialSlashes_one (x : Char) (r : PyStr) (hx : x ≠ '/') :
    initialSlashes ('/' :: x :: r) = 1 := by
  simp [initialSlashes, hx]

/-- On a relative path in normal form (nonempty, no empty or `'.'`
components, no `'/'` inside components, `'..'` only as a leading run),
`posix_normpath` of the joined string is the joined string itself, and the
result does not begin with a slash. -/
theorem posix_of_rel (NC : List PyStr) (hne : NC ≠ [])
    (hprops : ∀ c ∈ NC, c ≠ [] ∧ c ≠ ['.'] ∧ '/' ∉ c) (hrel : RelShape NC) :
    posix_normpath (joinSlash NC) = joinSlash NC ∧
    (joinSlash NC).take 1 ≠ ['/'] ∧ (joinSlash NC).take 2 ≠ ['/', '/'] := by
  obtain ⟨c₁, cs, rfl⟩ := List.exists_cons_of_ne_nil hne
  obtain ⟨r, hr, _⟩ := joinSlash_cons_ex c₁ cs
  obtain ⟨ch, ct, hc₁⟩ := List.exists_cons_of_ne_nil (hprops c₁ (List.mem_cons_self ..)).1
  subst hc₁
  have hch : ch ≠ '/' := fun h =>
    (hprops _ (List.mem_cons_self ..)).2.2 (h ▸ List.mem_cons_self ..)
  have hq : joinSlash ((ch :: ct) :: cs) = ch :: (ct ++ r) := by
    rw [hr]
    simp
  refine ⟨?_, ?_, ?_⟩
  · have hne2 : joinSlash ((ch :: ct) :: cs) ≠ [] := by
      rw [hq]
      simp
    have hisl : initialSlashes (joinSlash ((ch :: ct) :: cs)) = 0 := by
      rw [hq]
      exact initialSlashes_nonslash ch (ct ++ r) hch
    have hsplit : splitSlash (joinSlash ((ch :: ct) :: cs)) = (ch :: ct) :: cs :=
      splitSlash_joinSlash _ (by simp) (fun c hc => (hprops c hc).2.2)
    obtain ⟨k, M, hshape, hMdd⟩ := hrel
    have hMprops : ∀ c ∈ M, c ≠ [] ∧ c ≠ ['.'] ∧ c ≠ ['.', '.'] := by
      intro c hc
      have hcNC : c ∈ (ch :: ct) :: cs := by
        rw [hshape]
        exact List.mem_append_right _ hc
      exact ⟨(hprops c hcNC).1, (hprops c hcNC).2.1, hMdd c hc⟩
    have hloop : normLoop 0 ((ch :: ct) :: cs) [] = (ch :: ct) :: cs := by
      conv_lhs => rw [hshape]
      rw [normLoop_dots k M [] hMprops (Or.inl rfl)]
      rw [hshape]
      simp
    rw [posix_normpath, if_neg hne2, hisl, hsplit]
    simp [hloop, hne2]
  · rw [hq]
    simp [hch]
  · rw [hq]
    intro hcontra
    simp [List.take] at hcontra
    exact hch hcontra.1

/-- On an absolute path in normal form (components nonempty, not `'.'`,
not `'..'`, slash-free), `posix_normpath` of `'/'` + joined is itself and
does not begin with a double slash. -/
theorem posix_of_abs (NC : List PyStr)
    (hprops : ∀ c ∈ NC, c ≠ [] ∧ c ≠ ['.'] ∧ c ≠ ['.', '.'] ∧ '/' ∉ c) :
    posix_normpath ('/' :: joinSlash NC) = '/' :: joinSlash NC ∧
    ('/' :: joinSlash NC).take 2 ≠ ['/', '/'] := by
  cases NC with
  | nil => exact ⟨by decide, by decide⟩
  | cons c₁ cs =>
    obtain ⟨r, hr, _⟩ := joinSlash_cons_ex c₁ cs
    obtain ⟨ch, ct, hc₁⟩ :=
      List.exists_cons_of_ne_nil (hprops c₁ (List.mem_cons_self ..)).1
    subst hc₁
    have hch : ch ≠ '/' := fun h =>
      (hprops _ (List.mem_cons_self ..)).2.2.2 (h ▸ List.mem_cons_self ..)
    have hq : joinSlash ((ch :: ct) :: cs) = ch :: (ct ++ r) := by
      rw [hr]
      simp
    constructor
    · have hisl : initialSlashes ('/' :: joinSlash ((ch :: ct) :: cs)) = 1 := by
        rw [hq]
        exact initialSlashes_one ch (ct ++ r) hch
      have hsplit : splitSlash ('/' :: joinSlash ((ch :: ct) :: cs)) =
          [] :: (ch :: ct) :: cs := by
        rw [splitSlash_cons_slash,
          splitSlash_joinSlash _ (by simp) (fun c hc => (hprops c hc).2.2.2)]
      have hloop : normLoop 1 ([] :: (ch :: ct) :: cs) [] = (ch :: ct) :: cs := by
        rw [normLoop]
        rw [if_pos (Or.inl rfl)]
        exact normLoop_plain 1 _ []
          (fun c hc => ⟨(hprops c hc).1, (hprops c hc).2.1, (hprops c hc).2.2.1⟩)
      rw [posix_normpath, if_neg (by simp), hisl, hsplit]
      simp [hloop]
    · rw [hq]
      intro hcontra
      simp [List.take] at hcontra
      exact hch hcontra

/-- The composite fixpoint fact: `native_normpath` output is a fixed point
of `posix_normpath` and never begins with `'//'`. -/
theorem native_fixpoint (p : PyStr) :
    posix_normpath (native_normpath p) = native_normpath p ∧
    (native_normpath p).take 2 ≠ ['/', '/'] := by
  by_cases hp : p = []
  · subst hp
    exact ⟨by decide, by decide⟩
  · have hbasic := normLoop_basic (initialSlashes p) (splitSlash p) [] (by simp)
    have hslash : ∀ c ∈ normLoop (initialSlashes p) (splitSlash p) [], '/' ∉ c := by
      intro c hc
      rcases normLoop_mem (initialSlashes p) (splitSlash p) [] c hc with h | h
      · simp at h
      · exact mem_splitSlash_no_slash p c h
    rcases initialSlashes_cases p with h | h | h
    · -- relative path
      have hrel : RelShape (normLoop 0 (splitSlash p) []) :=
        normLoop_rel (splitSlash p) [] ⟨0, [], by simp, by simp⟩
      rw [h] at hbasic hslash
      by_cases hNC : normLoop 0 (splitSlash p) [] = []
      · have hq : posix_normpath p = ['.'] := by
          rw [posix_normpath, if_neg hp, h]
          simp [hNC, joinSlash]
        have hnp : native_normpath p = ['.'] := by
          rw [native_normpath, hq]
          decide
        rw [hnp]
        exact ⟨by decide, by decide⟩
      · have hq : posix_normpath p = joinSlash (normLoop 0 (splitSlash p) []) := by
          obtain ⟨c₁, cs, hcons⟩ := List.exists_cons_of_ne_nil hNC
          obtain ⟨r, hr, _⟩ := joinSlash_cons_ex c₁ cs
          have hc₁ : c₁ ≠ [] := (hbasic c₁ (hcons ▸ List.mem_cons_self ..)).1
          have hjne : joinSlash (normLoop 0 (splitSlash p) []) ≠ [] := by
            rw [hcons, hr]
            simp [hc₁]
          rw [posix_normpath, if_neg hp, h]
          simp [hjne]
        obtain ⟨hfix, h1, h2⟩ := posix_of_rel (normLoop 0 (splitSlash p) []) hNC
          (fun c hc => ⟨(hbasic c hc).1, (hbasic c hc).2, hslash c hc⟩) hrel
        have hnp : native_normpath p = joinSlash (normLoop 0 (splitSlash p) []) := by
          rw [native_normpath, hq, if_neg h2]
        rw [hnp]
        exact ⟨hfix, h2⟩
    · -- absolute, single leading slash
      rw [h] at hbasic hslash
      have habs : ∀ c ∈ normLoop 1 (splitSlash p) [], c ≠ ['.', '.'] :=
        normLoop_abs 1 (by decide) (splitSlash p) [] (by simp)
      have hprops : ∀ c ∈ normLoop 1 (splitSlash p) [],
          c ≠ [] ∧ c ≠ ['.'] ∧ c ≠ ['.', '.'] ∧ '/' ∉ c :=
        fun c hc => ⟨(hbasic c hc).1, (hbasic c hc).2, habs c hc, hslash c hc⟩
      have hq : posix_normpath p = '/' :: joinSlash (normLoop 1 (splitSlash p) []) := by
        rw [posix_normpath, if_neg hp, h]
        simp [List.replicate]
      obtain ⟨hfix, h2⟩ := posix_of_abs (normLoop 1 (splitSlash p) []) hprops
      have hnp : native_normpath p = '/' :: joinSlash (normLoop 1 (splitSlash p) []) := by
        rw [native_normpath, hq, if_neg h2]
      rw [hnp]
      exact ⟨hfix, h2⟩
    · -- absolute, exactly two leading slashes
      rw [h] at hbasic hslash
      have habs : ∀ c ∈ normLoop 2 (splitSlash p) [], c ≠ ['.', '.'] :=
        normLoop_abs 2 (by decide) (splitSlash p) [] (by simp)
      have hprops : ∀ c ∈ normLoop 2 (splitSlash p) [],
          c ≠ [] ∧ c ≠ ['.'] ∧ c ≠ ['.', '.'] ∧ '/' ∉ c :=
        fun c hc => ⟨(hbasic c hc).1, (hbasic c hc).2, habs c hc, hslash c hc⟩
      have hq : posix_normpath p =
          '/' :: '/' :: joinSlash (normLoop 2 (splitSlash p) []) := by
        rw [posix_normpath, if_neg hp, h]
        simp [List.replicate]
      obtain ⟨hfix, h2⟩ := posix_of_abs (normLoop 2 (splitSlash p) []) hprops
      have hnp : native_normpath p = '/' :: joinSlash (normLoop 2 (splitSlash p) []) := by
        rw [native_normpath, hq]
        simp [List.take]
      rw [hnp]
      exact ⟨hfix, h2⟩

/-- C8: `normalize` (`normpath`, embedded as `native_normpath`) is
idempotent: for every path string `p`,
`normalize(normalize(p)) == normalize(p)`. -/
theorem C8_normpath_idempotent (p : PyStr) :
    native_normpath (native_normpath p) = native_normpath p := by
  have h := native_fixpoint p
  show (if (posix_normpath (native_normpath p)).take 2 = ['/', '/'] then
      (posix_normpath (native_normpath p)).drop 1
    else posix_normpath (native_normpath p)) = native_normpath p
  rw [h.1, if_neg h.2]

/-- C9: `normalize` (`native_normpath`) agrees with the standard lexical
normalization (`posix_normpath`) except that a doubled leading separator is
collapsed: whenever the standard form starts with exactly `'//'` one
leading slash is dropped (the result starts with a single `'/'`), otherwise
the two agree; in particular
`normalize("//usr//local/../bin") = "/usr/bin"`. -/
theorem C9_normpath_double_slash (p : PyStr) :
    ((posix_normpath p).take 2 = ['/', '/'] →
      native_normpath p = (posix_normpath p).drop 1 ∧
      (native_normpath p).take 1 = ['/'] ∧
      (native_normpath p).take 2 ≠ ['/', '/']) ∧
    ((posix_normpath p).take 2 ≠ ['/', '/'] →
      native_normpath p = posix_normpath p) ∧
    native_normpath ("//usr//local/../bin".toList) = "/usr/bin".toList := by
  refine ⟨?_, ?_, by decide⟩
  · intro h
    have hfix := native_fixpoint p
    have hnp : native_normpath p = (posix_normpath p).drop 1 := by
      show (if (posix_normpath p).take 2 = ['/', '/'] then
          (posix_normpath p).drop 1 else posix_normpath p) = (posix_normpath p).drop 1
      rw [if_pos h]
    refine ⟨hnp, ?_, hfix.2⟩
    obtain ⟨rest, hrest⟩ : ∃ rest, posix_normpath p = '/' :: '/' :: rest := by
      rcases hpp : posix_normpath p with _ | ⟨a, _ | ⟨b, rest⟩⟩
      · rw [hpp] at h
        simp at h
      · rw [hpp] at h
        simp [List.take] at h
      · rw [hpp] at h
        simp [List.take] at h
        exact ⟨rest, by rw [h.1, h.2]⟩
    rw [hnp, hrest]
    simp
  · intro h
    show (if (posix_normpath p).take 2 = ['/', '/'] then
        (posix_normpath p).drop 1 else posix_normpath p) = posix_normpath p
    rw [if_neg h]

/-- Witness for C9 at the concrete input `"//a"`, whose standard-normalized
form starts with `'//'`. -/
theorem C9_normpath_double_slash_witness :
    native_normpath ("//a".toList) = (posix_normpath ("//a".toList)).drop 1 ∧
    (native_normpath ("//a".toList)).take 1 = ['/'] ∧
    (native_normpath ("//a".toList)).take 2 ≠ ['/', '/'] :=
  (C9_normpath_double_slash ("//a".toList)).1 (by decide)

/-! ### Claims about `FsLock` (C4, C7) -/

/-- C4 counterexample: on a handle whose descriptor was never opened, a
release call is not a no-op — when the lock file cannot be opened it
raises `NonExistant` (or `GenericFailed` with `create=true`) instead of
returning silently, refuting the claim at this concrete input. -/
theorem C4_counterexample :
    release_write_lock lockEnvNoOpen ⟨"lk".toList, none, false⟩ =
      Except.error (LockErr.nonExistant "lk".toList) ∧
    release_read_lock lockEnvNoOpen ⟨"lk".toList, none, false⟩ =
      Except.error (LockErr.nonExistant "lk".toList) ∧
    release_write_lock lockEnvNoOpen ⟨"lk".toList, none, true⟩ =
      Except.error (LockErr.genericFailed "lk".toList) :=
  ⟨rfl, rfl, rfl⟩

/-- C4 (amended): a release call on a handle whose descriptor was never
opened first opens the descriptor, exactly like an acquire; when the open
fails the call raises (`GenericFailed` with `create=true`, `NonExistant`
without), and when the open succeeds the unlock is performed on the fresh
descriptor and the call returns normally. -/
theorem C4_release_opens_descriptor (env : LockEnv) (l : FsLock)
    (hfd : l.fd = none) :
    (env.openR = none →
      release_write_lock env l =
        Except.error (if l.create then LockErr.genericFailed l.path
          else LockErr.nonExistant l.path) ∧
      release_read_lock env l =
        Except.error (if l.create then LockErr.genericFailed l.path
          else LockErr.nonExistant l.path)) ∧
    (∀ fd, env.openR = some fd → env.flockR fd Flags.lock_un true = FlockRes.ok →
      release_write_lock env l = Except.ok { l with fd := some fd } ∧
      release_read_lock env l = Except.ok { l with fd := some fd }) := by
  obtain ⟨pa, fdo, cr⟩ := l
  have hf : fdo = none := hfd
  subst hf
  constructor
  · intro hopen
    by_cases hc : cr <;>
      simp [release_write_lock, release_read_lock, enact_change, acquire_fd,
        hopen, hc, Except.map]
  · intro fd hopen hflock
    by_cases hc : cr <;>
      simp [release_write_lock, release_read_lock, enact_change, acquire_fd,
        hopen, hflock, hc, Except.map]

/-- Witness for the amended C4: concrete unopened handles, one where the
open fails (error raised) and one where it succeeds (normal return). -/
theorem C4_release_opens_descriptor_witness :
    release_write_lock lockEnvNoOpen ⟨"w".toList, none, false⟩ =
      Except.error (LockErr.nonExistant "w".toList) ∧
    release_write_lock lockEnvOpen3 ⟨"w".toList, none, false⟩ =
      Except.ok ⟨"w".toList, some 3, false⟩ := by
  constructor
  · have h := (C4_release_opens_descriptor lockEnvNoOpen
      ⟨"w".toList, none, false⟩ rfl).1 rfl
    simpa using h.1
  · have h := (C4_release_opens_descriptor lockEnvOpen3
      ⟨"w".toList, none, false⟩ rfl).2 3 rfl rfl
    simpa using h.1

/-- C7: a non-blocking acquire (write or read) on a handle with an open
descriptor returns `false` without raising when the OS reports
would-block (`EAGAIN`), raises `GenericFailed` on any other `flock`
failure, and returns `true` on success. -/
theorem C7_nonblocking_acquire (env : LockEnv) (l : FsLock) (fd : Nat)
    (hfd : l.fd = some fd) :
    (env.flockR fd Flags.lock_ex true = FlockRes.eagain →
      acquire_write_lock env l false = Except.ok (false, l)) ∧
    (env.flockR fd Flags.lock_ex true = FlockRes.err →
      acquire_write_lock env l false =
        Except.error (LockErr.genericFailed l.path)) ∧
    (env.flockR fd Flags.lock_ex true = FlockRes.ok →
      acquire_write_lock env l false = Except.ok (true, l)) ∧
    (env.flockR fd Flags.lock_sh true = FlockRes.eagain →
      acquire_read_lock env l false = Except.ok (false, l)) ∧
    (env.flockR fd Flags.lock_sh true = FlockRes.err →
      acquire_read_lock env l false =
        Except.error (LockErr.genericFailed l.path)) ∧
    (env.flockR fd Flags.lock_sh true = FlockRes.ok →
      acquire_read_lock env l false = Except.ok (true, l)) := by
  obtain ⟨pa, fdo, cr⟩ := l
  have hf : fdo = some fd := hfd
  subst hf
  refine ⟨?_, ?_, ?_, ?_, ?_, ?_⟩ <;> intro h <;>
    simp [acquire_write_lock, acquire_read_lock, enact_change, h]

/-- Witness for C7: a concrete open handle on which a contended
non-blocking write acquire returns `false` without error. -/
theorem C7_nonblocking_acquire_witness :
    acquire_write_lock lockEnvEagain ⟨"q".toList, some 7, false⟩ false =
      Except.ok (false, ⟨"q".toList, some 7, false⟩) :=
  (C7_nonblocking_acquire lockEnvEagain ⟨"q".toList, some 7, false⟩ 7 rfl).1 rfl

/-! ### Claims about `fallback_access` (C6, C10) -/

/-- C6: given a successful `lstat`, `fallback_access` decides exactly as
specified — empty request bits always grant; uid `0` grants read/write
unconditionally and execute iff any of the three execute bits is set;
the owner is checked against the owner triplet, a member of the file's
group against the group triplet, anyone else against the other triplet —
together with the three concrete `0640` cases of the spec. -/
theorem C6_fallback_access_decision :
    (∀ (st : StatT) (mode uid : Nat) (groups : List Nat),
      fallback_access (some st) mode uid groups = true ↔
        (mode = 0 ∨
         (uid = 0 ∧ (mode &&& 1 = 0 ∨ st.st_mode &&& 0o111 ≠ 0)) ∨
         (uid ≠ 0 ∧ uid = st.st_uid ∧ mode = (mode &&& ((st.st_mode >>> 6) &&& 0x7))) ∨
         (uid ≠ 0 ∧ uid ≠ st.st_uid ∧ st.st_gid ∈ groups ∧
           mode = (mode &&& ((st.st_mode >>> 3) &&& 0x7))) ∨
         (uid ≠ 0 ∧ uid ≠ st.st_uid ∧ st.st_gid ∉ groups ∧
           mode = (mode &&& (st.st_mode &&& 0x7))))) ∧
    fallback_access (some ⟨0o100640, 1000, 5⟩) 2 1000 [] = true ∧
    fallback_access (some ⟨0o100640, 1000, 5⟩) 2 2000 [5] = false ∧
    fallback_access (some ⟨0o100640, 1000, 5⟩) 2 0 [] = true := by
  refine ⟨?_, by decide, by decide, by decide⟩
  intro st mode uid groups
  unfold fallback_access
  split_ifs <;> simp_all
  all_goals split_ifs <;> simp_all

/-- C10: when the `lstat` fails (for instance the path does not exist),
`fallback_access` returns `false` for every requested-bits value,
including the existence-only request `0`, instead of raising. -/
theorem C10_fallback_access_stat_failure (mode uid : Nat) (groups : List Nat) :
    fallback_access none mode uid groups = false := rfl

/-! ### Trace lemmas for the `ensure_dirs` walk -/

theorem safe_mkdir_good (env : Env) (s : OSState) (p : PyStr) (m : Nat)
    (hok : (safe_mkdir env s p m).1 = Except.ok true) :
    ∃ Δ, (safe_mkdir env s p m).2.trace = s.trace ++ Δ ∧
      ∀ q st, Event.statE q (some st) ∈ Δ → isDir st.st_mode = true := by
  rcases hmk : env.mkdirR s.mkdirN with _ | _ | _
  · refine ⟨[Event.mkdirE p m MkdirRes.ok], ?_, ?_⟩
    · simp [safe_mkdir, doMkdir, hmk]
    · intro q st hmem
      simp at hmem
  · rcases hst : env.statR s.statN with _ | st
    · exfalso
      simp [safe_mkdir, doMkdir, doStat, hmk, hst] at hok
    · have hdir : isDir st.st_mode = true := by
        simpa [safe_mkdir, doMkdir, doStat, hmk, hst] using hok
      refine ⟨[Event.mkdirE p m MkdirRes.eexist, Event.statE p (some st)], ?_, ?_⟩
      · simp [safe_mkdir, doMkdir, doStat, hmk, hst]
      · intro q st' hmem
        simp at hmem
        exact hmem.2 ▸ hdir
  · exfalso
    simp [safe_mkdir, doMkdir, hmk] at hok

theorem walkStep_good (env : Env) (ctx : WalkCtx) (d base0 : PyStr)
    (sticky : Bool) (resets : List (PyStr × Nat)) (s : OSState)
    (hok : (walkStep env ctx d base0 sticky resets s).ok = true) :
    ∃ Δ, (walkStep env ctx d base0 sticky resets s).s.trace = s.trace ++ Δ ∧
      ∀ q st, Event.statE q (some st) ∈ Δ → isDir st.st_mode = true := by
  rcases hst : env.statR s.statN with _ | st
  · -- the segment does not exist: mkdir branch
    simp only [walkStep, doStat, hst] at hok ⊢
    by_cases hft : ctx.forceTemp = true
    · rw [if_pos hft] at hok ⊢
      rcases hsm : safe_mkdir env
          (⟨s.statN + 1, s.chmodN, s.chownN, s.mkdirN, s.umaskN,
            s.trace ++ [Event.statE (pathJoin base0 d) none]⟩ : OSState)
          (pathJoin base0 d) 0o700 with ⟨res, s2⟩
      rw [hsm] at hok
      rcases res with e | b
      · simp at hok
      · rcases b with _ | _
        · simp at hok
        · obtain ⟨Δ2, h2, g2⟩ := safe_mkdir_good env
            (⟨s.statN + 1, s.chmodN, s.chownN, s.mkdirN, s.umaskN,
              s.trace ++ [Event.statE (pathJoin base0 d) none]⟩ : OSState)
            (pathJoin base0 d) 0o700 (by rw [hsm])
          rw [hsm] at h2
          refine ⟨Event.statE (pathJoin base0 d) none :: Δ2, ?_, ?_⟩
          · simpa using h2
          · intro q st hm
            rcases List.mem_cons.mp hm with hm | hm
            · cases hm
            · exact g2 q st hm
    · rw [if_neg hft] at hok ⊢
      rcases hsm : safe_mkdir env
          (⟨s.statN + 1, s.chmodN, s.chownN, s.mkdirN, s.umaskN,
            s.trace ++ [Event.statE (pathJoin base0 d) none]⟩ : OSState)
          (pathJoin base0 d) ctx.fmode with ⟨res, s2⟩
      rw [hsm] at hok
      rcases res with e | b
      · simp at hok
      · rcases b with _ | _
        · simp at hok
        · obtain ⟨Δ2, h2, g2⟩ := safe_mkdir_good env
            (⟨s.statN + 1, s.chmodN, s.chownN, s.mkdirN, s.umaskN,
              s.trace ++ [Event.statE (pathJoin base0 d) none]⟩ : OSState)
            (pathJoin base0 d) ctx.fmode (by rw [hsm])
          rw [hsm] at h2
          simp only [List.append_assoc, List.singleton_append] at h2
          by_cases hgu : ctx.gid ≠ -1 ∨ ctx.uid ≠ -1
          · by_cases hco : env.chownR s2.chownN = true
            · refine ⟨Event.statE (pathJoin base0 d) none :: Δ2 ++
                [Event.chownE (pathJoin base0 d) ctx.uid ctx.gid true], ?_, ?_⟩
              · simp [hgu, doChown, hco, h2]
              · intro q st hm
                simp at hm
                exact g2 q st hm
            · exfalso
              simp [hgu, doChown, hco] at hok
          · refine ⟨Event.statE (pathJoin base0 d) none :: Δ2, ?_, ?_⟩
            · simp [hgu, h2]
            · intro q st hm
              simp at hm
              exact g2 q st hm
  · -- the segment exists
    simp only [walkStep, doStat, hst] at hok ⊢
    by_cases hdir : isDir st.st_mode = true
    · by_cases hap : pathJoin base0 d ≠ ctx.apath
      · by_cases hwx : (st.st_mode &&& 0o300) ≠ 0o300
        · by_cases hcm : env.chmodR s.chmodN = true
          · refine ⟨[Event.statE (pathJoin base0 d) (some st),
              Event.chmodE (pathJoin base0 d) (st.st_mode ||| 0o300) true], ?_, ?_⟩
            · simp [hdir, hap, hwx, doChmod, hcm]
            · intro q st' hm
              simp at hm
              exact hm.2 ▸ hdir
          · exfalso
            simp [hdir, hap, hwx, doChmod, hcm] at hok
        · refine ⟨[Event.statE (pathJoin base0 d) (some st)], ?_, ?_⟩
          · simp [hdir, hap, hwx]
          · intro q st' hm
            simp at hm
            exact hm.2 ▸ hdir
      · refine ⟨[Event.statE (pathJoin base0 d) (some st)], ?_, ?_⟩
        · simp [hdir, hap]
        · intro q st' hm
          simp at hm
          exact hm.2 ▸ hdir
    · exfalso
      have hd : isDir st.st_mode = false := by
        revert hdir
        cases isDir st.st_mode <;> simp
      simp [hd] at hok

theorem walkStep_nondir_last (env : Env) (ctx : WalkCtx) (d base0 : PyStr)
    (sticky : Bool) (resets : List (PyStr × Nat)) (s : OSState) (p : PyStr)
    (st : StatT)
    (hmem : Event.statE p (some st) ∈
      (walkStep env ctx d base0 sticky resets s).s.trace)
    (hnd : ¬ isDir st.st_mode = true)
    (hold : Event.statE p (some st) ∉ s.trace) :
    (walkStep env ctx d base0 sticky resets s).ok = false ∧
    ∃ pre, (walkStep env ctx d base0 sticky resets s).s.trace =
      pre ++ [Event.statE p (some st)] := by
  rcases hst : env.statR s.statN with _ | st1
  · -- the segment does not exist: mkdir branch
    simp only [walkStep, doStat, hst] at hmem ⊢
    by_cases hft : ctx.forceTemp = true
    · rw [if_pos hft] at hmem ⊢
      rcases hmk : env.mkdirR s.mkdirN with _ | _ | _
      · exfalso
        simp [safe_mkdir, doMkdir, hmk] at hmem
        exact hold hmem
      · rcases hst2 : env.statR (s.statN + 1) with _ | st2
        · exfalso
          simp [safe_mkdir, doMkdir, doStat, hmk, hst2] at hmem
          exact hold hmem
        · by_cases hdir2 : isDir st2.st_mode = true
          · exfalso
            simp [safe_mkdir, doMkdir, doStat, hmk, hst2, hdir2] at hmem
            rcases hmem with hmem | hmem
            · exact hold hmem
            · exact hnd (hmem.2 ▸ hdir2)
          · have hd2 : isDir st2.st_mode = false := by
              revert hdir2
              cases isDir st2.st_mode <;> simp
            simp only [safe_mkdir, doMkdir, doStat, hmk, hst2, hd2] at hmem ⊢
            simp at hmem ⊢
            rcases hmem with hmem | hmem
            · exact absurd hmem hold
            · obtain ⟨hp, hs⟩ := hmem
              subst hp
              subst hs
              exact ⟨s.trace ++ [Event.statE (pathJoin base0 d) none,
                Event.mkdirE (pathJoin base0 d) 0o700 MkdirRes.eexist], by simp⟩
      · exfalso
        simp [safe_mkdir, doMkdir, hmk] at hmem
        exact hold hmem
    · rw [if_neg hft] at hmem ⊢
      rcases hmk : env.mkdirR s.mkdirN with _ | _ | _
      · exfalso
        by_cases hgu : ctx.gid ≠ -1 ∨ ctx.uid ≠ -1
        · by_cases hco : env.chownR s.chownN = true
          · simp [safe_mkdir, doMkdir, doChown, hmk, hgu, hco] at hmem
            exact hold hmem
          · simp [safe_mkdir, doMkdir, doChown, hmk, hgu, hco] at hmem
            exact hold hmem
        · simp [safe_mkdir, doMkdir, hmk, hgu] at hmem
          exact hold hmem
      · rcases hst2 : env.statR (s.statN + 1) with _ | st2
        · exfalso
          simp [safe_mkdir, doMkdir, doStat, hmk, hst2] at hmem
          exact hold hmem
        · by_cases hdir2 : isDir st2.st_mode = true
          · exfalso
            by_cases hgu : ctx.gid ≠ -1 ∨ ctx.uid ≠ -1
            · by_cases hco : env.chownR s.chownN = true
              · simp [safe_mkdir, doMkdir, doStat, doChown, hmk, hst2, hdir2,
                  hgu, hco] at hmem
                rcases hmem with hmem | hmem
                · exact hold hmem
                · exact hnd (hmem.2 ▸ hdir2)
              · simp [safe_mkdir, doMkdir, doStat, doChown, hmk, hst2, hdir2,
                  hgu, hco] at hmem
                rcases hmem with hmem | hmem
                · exact hold hmem
                · exact hnd (hmem.2 ▸ hdir2)
            · simp [safe_mkdir, doMkdir, doStat, hmk, hst2, hdir2, hgu] at hmem
              rcases hmem with hmem | hmem
              · exact hold hmem
              · exact hnd (hmem.2 ▸ hdir2)
          · have hd2 : isDir st2.st_mode = false := by
              revert hdir2
              cases isDir st2.st_mode <;> simp
            simp only [safe_mkdir, doMkdir, doStat, hmk, hst2, hd2] at hmem ⊢
            simp at hmem ⊢
            rcases hmem with hmem | hmem
            · exact absurd hmem hold
            · obtain ⟨hp, hs⟩ := hmem
              subst hp
              subst hs
              exact ⟨s.trace ++ [Event.statE (pathJoin base0 d) none,
                Event.mkdirE (pathJoin base0 d) ctx.fmode MkdirRes.eexist], by simp⟩
      · exfalso
        simp [safe_mkdir, doMkdir, hmk] at hmem
        exact hold hmem
  · -- the segment exists
    simp only [walkStep, doStat, hst] at hmem ⊢
    by_cases hdir1 : isDir st1.st_mode = true
    · exfalso
      by_cases hap : pathJoin base0 d ≠ ctx.apath
      · by_cases hwx : (st1.st_mode &&& 0o300) ≠ 0o300
        · rcases hcm : env.chmodR s.chmodN with _ | _
          · simp [hdir1, hap, hwx, doChmod, hcm] at hmem
            rcases hmem with hmem | hmem
            · exact hold hmem
            · exact hnd (hmem.2 ▸ hdir1)
          · simp [hdir1, hap, hwx, doChmod, hcm] at hmem
            rcases hmem with hmem | hmem
            · exact hold hmem
            · exact hnd (hmem.2 ▸ hdir1)
        · simp [hdir1, hap, hwx] at hmem
          rcases hmem with hmem | hmem
          · exact hold hmem
          · exact hnd (hmem.2 ▸ hdir1)
      · simp [hdir1, hap] at hmem
        rcases hmem with hmem | hmem
        · exact hold hmem
        · exact hnd (hmem.2 ▸ hdir1)
    · have hd1 : isDir st1.st_mode = false := by
        revert hdir1
        cases isDir st1.st_mode <;> simp
      simp only [hd1] at hmem ⊢
      simp at hmem ⊢
      rcases hmem with hmem | hmem
      · exact absurd hmem hold
      · obtain ⟨hp, hs⟩ := hmem
        subst hp
        subst hs
        exact ⟨s.trace, by simp⟩

theorem walkLoop_good (env : Env) (ctx : WalkCtx) :
    ∀ (ds : List PyStr) (base : PyStr) (sticky : Bool)
      (resets : List (PyStr × Nat)) (s : OSState),
    (walkLoop env ctx ds base sticky resets s).1 = true →
    ∃ Δ, (walkLoop env ctx ds base sticky resets s).2.2.2.trace = s.trace ++ Δ ∧
      ∀ q st, Event.statE q (some st) ∈ Δ → isDir st.st_mode = true
  | [], _, _, _, s, _ => ⟨[], by simp [walkLoop], by simp⟩
  | d :: ds, base, sticky, resets, s, h => by
    simp only [walkLoop] at h ⊢
    by_cases hok : (walkStep env ctx d base sticky resets s).ok = true
    · rw [if_pos hok] at h ⊢
      obtain ⟨Δ1, h1, g1⟩ := walkStep_good env ctx d base sticky resets s hok
      obtain ⟨Δ2, h2, g2⟩ := walkLoop_good env ctx ds _ _ _ _ h
      refine ⟨Δ1 ++ Δ2, ?_, ?_⟩
      · rw [h2, h1, List.append_assoc]
      · intro q st hm
        rcases List.mem_append.mp hm with hm | hm
        · exact g1 q st hm
        · exact g2 q st hm
    · rw [if_neg hok] at h
      simp at h

theorem drainLoop_ok_trace (env : Env) :
    ∀ (l : List (PyStr × Nat)) (b : PyStr) (s : OSState),
    (drainLoop env l b s).1 = true →
    (drainLoop env l b s).2.2.trace =
      s.trace ++ l.map (fun pm => Event.chmodE pm.1 pm.2 true)
  | [], _, s, _ => by simp [drainLoop]
  | (p, m) :: rest, b, s, h => by
    by_cases hc : env.chmodR s.chmodN = true
    · have h' : (drainLoop env rest p
        (⟨s.statN, s.chmodN + 1, s.chownN, s.mkdirN, s.umaskN,
          s.trace ++ [Event.chmodE p m true]⟩ : OSState)).1 = true := by
        simpa [drainLoop, doChmod, hc] using h
      have ih := drainLoop_ok_trace env rest p _ h'
      simp [drainLoop, doChmod, hc, ih]
    · exfalso
      simp [drainLoop, doChmod, hc] at h

theorem drainLoop_nostat (env : Env) :
    ∀ (l : List (PyStr × Nat)) (b : PyStr) (s : OSState),
    ∃ Δ, (drainLoop env l b s).2.2.trace = s.trace ++ Δ ∧
      ∀ q r, Event.statE q r ∉ Δ
  | [], _, s => ⟨[], by simp [drainLoop], by simp⟩
  | (p, m) :: rest, b, s => by
    by_cases hc : env.chmodR s.chmodN = true
    · obtain ⟨Δ, hΔ, gΔ⟩ := drainLoop_nostat env rest p
        (⟨s.statN, s.chmodN + 1, s.chownN, s.mkdirN, s.umaskN,
          s.trace ++ [Event.chmodE p m true]⟩ : OSState)
      refine ⟨Event.chmodE p m true :: Δ, ?_, ?_⟩
      · simp [drainLoop, doChmod, hc, hΔ]
      · intro q r hm
        rcases List.mem_cons.mp hm with hm | hm
        · cases hm
        · exact gΔ q r hm
    · refine ⟨[Event.chmodE p m (env.chmodR s.chmodN)], ?_, ?_⟩
      · simp [drainLoop, doChmod, hc]
      · intro q r hm
        simp at hm

theorem finishPhase_nostat (env : Env) (ctx : WalkCtx)
    (resets : List (PyStr × Nat)) (wbase : PyStr) (s : OSState) :
    ∃ Δ, (finishPhase env ctx resets wbase s).2.trace = s.trace ++ Δ ∧
      ∀ q r, Event.statE q r ∉ Δ := by
  obtain ⟨Δ, hΔ, gΔ⟩ := drainLoop_nostat env resets.reverse wbase s
  rcases hd : drainLoop env resets.reverse wbase s with ⟨ok, b, s2⟩
  rw [hd] at hΔ
  replace hΔ : s2.trace = s.trace ++ Δ := hΔ
  rcases ok with _ | _
  · exact ⟨Δ, by simpa [finishPhase, hd] using hΔ, gΔ⟩
  · by_cases hgu : ctx.uid ≠ -1 ∨ ctx.gid ≠ -1
    · refine ⟨Δ ++ [Event.chownE b ctx.uid ctx.gid (env.chownR s2.chownN)], ?_, ?_⟩
      · simp only [finishPhase, hd]
        simp [hgu, doChown, hΔ]
      · intro q r hm
        rcases List.mem_append.mp hm with hm | hm
        · exact gΔ q r hm
        · simp at hm
    · refine ⟨Δ, ?_, gΔ⟩
      simp only [finishPhase, hd]
      simp [hgu, hΔ]

theorem finishPhase_ok_trace (env : Env) (ctx : WalkCtx)
    (resets : List (PyStr × Nat)) (wbase : PyStr) (s : OSState)
    (h : (finishPhase env ctx resets wbase s).1 = true) :
    ∃ post, (finishPhase env ctx resets wbase s).2.trace =
      s.trace ++ resets.reverse.map (fun pm => Event.chmodE pm.1 pm.2 true) ++ post := by
  rcases hd : drainLoop env resets.reverse wbase s with ⟨ok, b, s2⟩
  rcases ok with _ | _
  · exfalso
    simp [finishPhase, hd] at h
  · have hdt := drainLoop_ok_trace env resets.reverse wbase s (by rw [hd])
    rw [hd] at hdt
    replace hdt : s2.trace =
      s.trace ++ resets.reverse.map (fun pm => Event.chmodE pm.1 pm.2 true) := hdt
    by_cases hgu : ctx.uid ≠ -1 ∨ ctx.gid ≠ -1
    · refine ⟨[Event.chownE b ctx.uid ctx.gid (env.chownR s2.chownN)], ?_⟩
      simp only [finishPhase, hd]
      simp [hgu, doChown, hdt]
    · refine ⟨[], ?_⟩
      simp only [finishPhase, hd]
      simp [hgu, hdt]

theorem walkBranch_good (env : Env) (ctx : WalkCtx) (dirs : List PyStr)
    (s : OSState) (um : Nat)
    (h : (walkBranch env ctx dirs s um).1 = true) :
    ∃ Δ, (walkBranch env ctx dirs s um).2.2.trace = s.trace ++ Δ ∧
      ∀ q st, Event.statE q (some st) ∈ Δ → isDir st.st_mode = true := by
  rcases hw : walkLoop env ctx dirs ['/'] false [] s with ⟨ok, wbase, resets, s3⟩
  rcases ok with _ | _
  · exfalso
    simp [walkBranch, hw] at h
  · obtain ⟨Δ1, h1, g1⟩ := walkLoop_good env ctx dirs ['/'] false [] s (by rw [hw])
    rw [hw] at h1
    replace h1 : s3.trace = s.trace ++ Δ1 := h1
    rcases hf : finishPhase env ctx resets wbase s3 with ⟨ok2, s4⟩
    obtain ⟨Δ2, h2, g2⟩ := finishPhase_nostat env ctx resets wbase s3
    rw [hf] at h2
    replace h2 : s4.trace = s3.trace ++ Δ2 := h2
    refine ⟨Δ1 ++ Δ2 ++
      [Event.umaskE um (if s4.umaskN = 0 then env.umaskPrior else 0)], ?_, ?_⟩
    · simp [walkBranch, hw, hf, doUmask, h2, h1]
    · intro q st hm
      simp only [List.append_assoc, List.mem_append, List.mem_singleton] at hm
      rcases hm with hm | hm | hm
      · exact g1 q st hm
      · exact absurd hm (g2 q (some st))
      · cases hm

theorem walkBranch_drain (env : Env) (ctx : WalkCtx) (dirs : List PyStr)
    (s : OSState) (um : Nat)
    (h : (walkBranch env ctx dirs s um).1 = true) :
    ∃ pre post, (walkBranch env ctx dirs s um).2.2.trace =
      pre ++ (walkBranch env ctx dirs s um).2.1.reverse.map
        (fun pm => Event.chmodE pm.1 pm.2 true) ++ post := by
  rcases hw : walkLoop env ctx dirs ['/'] false [] s with ⟨ok, wbase, resets, s3⟩
  rcases ok with _ | _
  · exfalso
    simp [walkBranch, hw] at h
  · rcases hf : finishPhase env ctx resets wbase s3 with ⟨ok2, s4⟩
    rcases ok2 with _ | _
    · exfalso
      simp [walkBranch, hw, hf] at h
    · obtain ⟨post, hpost⟩ := finishPhase_ok_trace env ctx resets wbase s3 (by rw [hf])
      rw [hf] at hpost
      replace hpost : s4.trace = s3.trace ++
        resets.reverse.map (fun pm => Event.chmodE pm.1 pm.2 true) ++ post := hpost
      refine ⟨s3.trace,
        post ++ [Event.umaskE um (if s4.umaskN = 0 then env.umaskPrior else 0)], ?_⟩
      simp [walkBranch, hw, hf, doUmask, hpost]

theorem walkLoop_nondir (env : Env) (ctx : WalkCtx) :
    ∀ (ds : List PyStr) (base : PyStr) (sticky : Bool)
      (resets : List (PyStr × Nat)) (s : OSState) (p : PyStr) (st : StatT),
    Event.statE p (some st) ∈
      (walkLoop env ctx ds base sticky resets s).2.2.2.trace →
    ¬ isDir st.st_mode = true →
    Event.statE p (some st) ∉ s.trace →
    (walkLoop env ctx ds base sticky resets s).1 = false ∧
    ∃ pre, (walkLoop env ctx ds base sticky resets s).2.2.2.trace =
      pre ++ [Event.statE p (some st)]
  | [], _, _, _, s, p, st, hmem, _, hold => by
    exfalso
    exact hold (by simpa [walkLoop] using hmem)
  | d :: ds, base, sticky, resets, s, p, st, hmem, hnd, hold => by
    simp only [walkLoop] at hmem ⊢
    by_cases hok : (walkStep env ctx d base sticky resets s).ok = true
    · rw [if_pos hok] at hmem ⊢
      obtain ⟨Δ1, h1, g1⟩ := walkStep_good env ctx d base sticky resets s hok
      have hold' : Event.statE p (some st) ∉
          (walkStep env ctx d base sticky resets s).s.trace := by
        rw [h1]
        intro hc
        rcases List.mem_append.mp hc with hc | hc
        · exact hold hc
        · exact hnd (g1 p st hc)
      exact walkLoop_nondir env ctx ds _ _ _ _ p st hmem hnd hold'
    · rw [if_neg hok] at hmem ⊢
      obtain ⟨_, pre, hpre⟩ :=
        walkStep_nondir_last env ctx d base sticky resets s p st hmem hnd hold
      exact ⟨rfl, pre, hpre⟩

theorem walkBranch_nondir (env : Env) (ctx : WalkCtx) (dirs : List PyStr)
    (s : OSState) (um : Nat) (p : PyStr) (st : StatT)
    (hmem : Event.statE p (some st) ∈ (walkBranch env ctx dirs s um).2.2.trace)
    (hnd : ¬ isDir st.st_mode = true)
    (hold : Event.statE p (some st) ∉ s.trace) :
    (walkBranch env ctx dirs s um).1 = false ∧
    ∃ pre a r, (walkBranch env ctx dirs s um).2.2.trace =
      pre ++ [Event.statE p (some st), Event.umaskE a r] := by
  rcases hw : walkLoop env ctx dirs ['/'] false [] s with ⟨ok, wbase, resets, s3⟩
  rcases ok with _ | _
  · -- the walk stopped at a failure
    replace hmem : Event.statE p (some st) ∈ s3.trace ++
        [Event.umaskE um (if s3.umaskN = 0 then env.umaskPrior else 0)] := by
      simpa [walkBranch, hw, doUmask] using hmem
    have hmem3 : Event.statE p (some st) ∈ s3.trace := by
      rcases List.mem_append.mp hmem with h | h
      · exact h
      · simp at h
    obtain ⟨_, pre, hpre⟩ := walkLoop_nondir env ctx dirs ['/'] false [] s p st
      (by rw [hw]; exact hmem3) hnd hold
    rw [hw] at hpre
    replace hpre : s3.trace = pre ++ [Event.statE p (some st)] := hpre
    refine ⟨by simp [walkBranch, hw],
      pre, um, if s3.umaskN = 0 then env.umaskPrior else 0, ?_⟩
    simp [walkBranch, hw, doUmask, hpre]
  · -- a successful walk never observed a non-directory
    exfalso
    obtain ⟨Δ, hΔ, g⟩ := walkLoop_good env ctx dirs ['/'] false [] s (by rw [hw])
    rw [hw] at hΔ
    replace hΔ : s3.trace = s.trace ++ Δ := hΔ
    rcases hf : finishPhase env ctx resets wbase s3 with ⟨ok2, s4⟩
    obtain ⟨Δ2, h2, g2⟩ := finishPhase_nostat env ctx resets wbase s3
    rw [hf] at h2
    replace h2 : s4.trace = s3.trace ++ Δ2 := h2
    replace hmem : Event.statE p (some st) ∈ s4.trace ++
        [Event.umaskE um (if s4.umaskN = 0 then env.umaskPrior else 0)] := by
      simpa [walkBranch, hw, hf, doUmask] using hmem
    rw [h2, hΔ] at hmem
    simp only [List.append_assoc, List.mem_append, List.mem_singleton] at hmem
    rcases hmem with hmem | hmem | hmem | hmem
    · exact hold hmem
    · exact hnd (g p st hmem)
    · exact g2 p (some st) hmem
    · cases hmem

/-- When the initial `stat` fails, `ensure_dirs` is exactly the walk
branch `edWalk` marked `tookWalk`. -/
theorem ensure_dirs_walk_eq (env : Env) (cwd path : PyStr) (gid uid : Int)
    (mode : Nat) (minimal : Bool) (h0 : env.statR 0 = none) :
    ensure_dirs env cwd path gid uid mode minimal =
      ⟨(edWalk env cwd path gid uid mode).1, true,
       (edWalk env cwd path gid uid mode).2.1,
       (edWalk env cwd path gid uid mode).2.2⟩ := by
  simp [ensure_dirs, edWalk, doStat, doUmask, OSState.init, h0]

theorem edWalk_good (env : Env) (cwd path : PyStr) (gid uid : Int) (mode : Nat)
    (h : (edWalk env cwd path gid uid mode).1 = true) :
    ∃ Δ, (edWalk env cwd path gid uid mode).2.2.trace =
      [Event.statE path none, Event.umaskE 0 env.umaskPrior] ++ Δ ∧
      ∀ q st, Event.statE q (some st) ∈ Δ → isDir st.st_mode = true :=
  walkBranch_good env _ _ _ _ h

theorem edWalk_drain (env : Env) (cwd path : PyStr) (gid uid : Int) (mode : Nat)
    (h : (edWalk env cwd path gid uid mode).1 = true) :
    ∃ pre post, (edWalk env cwd path gid uid mode).2.2.trace =
      pre ++ (edWalk env cwd path gid uid mode).2.1.reverse.map
        (fun pm => Event.chmodE pm.1 pm.2 true) ++ post :=
  walkBranch_drain env _ _ _ _ h

theorem edWalk_nondir (env : Env) (cwd path : PyStr) (gid uid : Int)
    (mode : Nat) (q : PyStr) (st : StatT)
    (hmem : Event.statE q (some st) ∈ (edWalk env cwd path gid uid mode).2.2.trace)
    (hnd : ¬ isDir st.st_mode = true) :
    (edWalk env cwd path gid uid mode).1 = false ∧
    ∃ pre a r, (edWalk env cwd path gid uid mode).2.2.trace =
      pre ++ [Event.statE q (some st), Event.umaskE a r] :=
  walkBranch_nondir env _ _ _ _ q st hmem hnd (by simp)

/-! ### Claims about `ensure_dirs` (C1, C2, C3, C5) -/

/-- C1 counterexample: an invocation taking the segment-walk path that
records a permission reset for `/a` and then stops at a failed `mkdir`
returns `false` with the reset still recorded but never restored — no
`chmod` back to the recorded mode appears anywhere in the trace, so the
resets are not drained on the failure path. -/
theorem C1_counterexample :
    (ensure_dirs envC1 [] "/a/b".toList (-1) (-1) 0o777 true).tookWalk = true ∧
    ("/a".toList, 0o40100) ∈
      (ensure_dirs envC1 [] "/a/b".toList (-1) (-1) 0o777 true).resets ∧
    (∀ ok : Bool, Event.chmodE "/a".toList 0o40100 ok ∉
      (ensure_dirs envC1 [] "/a/b".toList (-1) (-1) 0o777 true).s.trace) ∧
    (ensure_dirs envC1 [] "/a/b".toList (-1) (-1) 0o777 true).ret = false := by
  decide

/-- C2 counterexample: when the full target path exists as a regular file,
`ensure_dirs` takes the fast branch, `chmod`s the non-directory and
returns `true` — not `false` as the claim asserts for every non-directory
component. -/
theorem C2_counterexample :
    (ensure_dirs envC2f [] "/f".toList (-1) (-1) 0o755 true).ret = true ∧
    (ensure_dirs envC2f [] "/f".toList (-1) (-1) 0o755 true).s.trace =
      [Event.statE "/f".toList (some stFile),
       Event.chmodE "/f".toList 0o100755 true] ∧
    isDir stFile.st_mode = false := by
  decide

/-- C3 counterexample: with requested mode `0300` (owner write+execute but
no owner read — so the claim's "lacks any of owner read, write, or
execute" holds) the walk nevertheless creates the final segment directly
with mode `0300` and records no reset; and the existing intermediate `/a`
with mode `0300` (again lacking owner read) is not `chmod`ed at all.  The
walk tests `mode & 0300`, not `mode & 0700`. -/
theorem C3_counterexample :
    (0o300 &&& 0o700 : Nat) ≠ 0o700 ∧
    (stWX.st_mode &&& 0o700 : Nat) ≠ 0o700 ∧
    (ensure_dirs envC3 [] "/a/b".toList (-1) (-1) 0o300 true).tookWalk = true ∧
    (ensure_dirs envC3 [] "/a/b".toList (-1) (-1) 0o300 true).ret = true ∧
    (ensure_dirs envC3 [] "/a/b".toList (-1) (-1) 0o300 true).resets = [] ∧
    (ensure_dirs envC3 [] "/a/b".toList (-1) (-1) 0o300 true).s.trace =
      [Event.statE "/a/b".toList none,
       Event.umaskE 0 0o22,
       Event.statE "/".toList (some stRoot),
       Event.statE "/a".toList (some stWX),
       Event.statE "/a/b".toList none,
       Event.mkdirE "/a/b".toList 0o300 MkdirRes.ok,
       Event.umaskE 0o22 0] := by
  decide

/-- C5: the sticky-parent flag is computed from `st.st_gid & S_ISGID`
(the numeric group id masked with a mode-bit constant), not from
`st.st_mode`.  A parent whose mode carries set-group-id (`02775`, gid
`100`) yields no recorded reset for the created final segment, while a
parent whose mode lacks the bit but whose gid happens to contain `0o2000`
(gid `0o2010`) does yield the reset. -/
theorem C5_sticky_flag_uses_gid :
    ((stSgidMode.st_mode &&& 0o2000 : Nat) ≠ 0 ∧
     (stSgidMode.st_gid &&& 0o2000 : Nat) = 0 ∧
     (ensure_dirs envC5a [] "/p/q".toList (-1) (-1) 0o775 true).ret = true ∧
     (ensure_dirs envC5a [] "/p/q".toList (-1) (-1) 0o775 true).resets = []) ∧
    ((stSgidGid.st_mode &&& 0o2000 : Nat) = 0 ∧
     (stSgidGid.st_gid &&& 0o2000 : Nat) ≠ 0 ∧
     (ensure_dirs envC5b [] "/p/q".toList (-1) (-1) 0o775 true).resets =
       [("/p/q".toList, 0o775)]) := by
  decide

/-- C3 (amended): during the segment walk of `ensure_dirs` (whose context
sets `forceTemp` to `(mode & 0300) != 0300`), a nonexistent segment is
created with restrictive temporary mode `0700` and a reset to the
requested mode recorded exactly when the requested final mode lacks owner
write or execute (`0300`) — owner read plays no role; otherwise it is
created directly with the requested mode (and no reset outside the
sticky-parent case).  An existing intermediate directory is chmod'ed to
`st_mode | 0300` (adding owner write+execute, not read) with a reset of
its original mode exactly when it lacks one of those two owner bits. -/
theorem C3_temp_perms_test_owner_wx (env : Env) (ctx : WalkCtx)
    (d base0 : PyStr) (sticky : Bool) (resets : List (PyStr × Nat))
    (s : OSState)
    (hft : ctx.forceTemp = ((ctx.fmode &&& 0o300) != 0o300)) :
    let r := walkStep env ctx d base0 sticky resets s
    let b := pathJoin base0 d
    (env.statR s.statN = none → (ctx.fmode &&& 0o300) ≠ 0o300 →
      Event.mkdirE b 0o700 (env.mkdirR s.mkdirN) ∈ r.s.trace ∧
      (r.ok = true → r.resets = resets ++ [(b, ctx.fmode)])) ∧
    (env.statR s.statN = none → (ctx.fmode &&& 0o300) = 0o300 →
      Event.mkdirE b ctx.fmode (env.mkdirR s.mkdirN) ∈ r.s.trace ∧
      (¬(b = ctx.apath ∧ sticky = true) → r.resets = resets)) ∧
    (∀ st, env.statR s.statN = some st → isDir st.st_mode = true →
      b ≠ ctx.apath → (st.st_mode &&& 0o300) ≠ 0o300 →
      Event.chmodE b (st.st_mode ||| 0o300) (env.chmodR s.chmodN) ∈ r.s.trace ∧
      (r.ok = true → r.resets = resets ++ [(b, st.st_mode)])) ∧
    (∀ st, env.statR s.statN = some st → isDir st.st_mode = true →
      b ≠ ctx.apath → (st.st_mode &&& 0o300) = 0o300 →
      r.resets = resets ∧ r.s.trace = s.trace ++ [Event.statE b (some st)]) := by
  refine ⟨?_, ?_, ?_, ?_⟩
  · intro hst hmode
    have hftT : ctx.forceTemp = true := by
      rw [hft]
      exact bne_iff_ne.mpr hmode
    simp only [walkStep, doStat, hst, hftT, if_true]
    rcases hmk : env.mkdirR s.mkdirN with _ | _ | _
    · constructor
      · simp [safe_mkdir, doMkdir, hmk]
      · intro _
        simp [safe_mkdir, doMkdir, hmk]
    · rcases hst2 : env.statR (s.statN + 1) with _ | st2
      · constructor
        · simp [safe_mkdir, doMkdir, doStat, hmk, hst2]
        · intro hok
          exfalso
          simp [safe_mkdir, doMkdir, doStat, hmk, hst2] at hok
      · by_cases hdir2 : isDir st2.st_mode = true
        · constructor
          · simp [safe_mkdir, doMkdir, doStat, hmk, hst2, hdir2]
          · intro _
            simp [safe_mkdir, doMkdir, doStat, hmk, hst2, hdir2]
        · have hd2 : isDir st2.st_mode = false := by
            revert hdir2
            cases isDir st2.st_mode <;> simp
          constructor
          · simp [safe_mkdir, doMkdir, doStat, hmk, hst2, hd2]
          · intro hok
            exfalso
            simp [safe_mkdir, doMkdir, doStat, hmk, hst2, hd2] at hok
    · constructor
      · simp [safe_mkdir, doMkdir, hmk]
      · intro hok
        exfalso
        simp [safe_mkdir, doMkdir, hmk] at hok
  · intro hst hmode
    have hftF : ctx.forceTemp = false := by
      rw [hft, hmode]
      simp
    simp only [walkStep, doStat, hst, hftF, Bool.false_eq_true, if_false]
    rcases hmk : env.mkdirR s.mkdirN with _ | _ | _
    · constructor
      · simp only [safe_mkdir, doMkdir, hmk]
        split_ifs <;> simp [doChown]
      · intro hx
        by_cases hgu : ctx.gid ≠ -1 ∨ ctx.uid ≠ -1
        · by_cases hco : env.chownR s.chownN = true <;>
            simp [safe_mkdir, doMkdir, doChown, hmk, hgu, hco, hx]
        · simp [safe_mkdir, doMkdir, hmk, hgu, hx]
    · rcases hst2 : env.statR (s.statN + 1) with _ | st2
      · constructor
        · simp [safe_mkdir, doMkdir, doStat, hmk, hst2]
        · intro _
          simp [safe_mkdir, doMkdir, doStat, hmk, hst2]
      · by_cases hdir2 : isDir st2.st_mode = true
        · constructor
          · simp only [safe_mkdir, doMkdir, doStat, hmk, hst2, hdir2]
            split_ifs <;> simp [doChown]
          · intro hx
            by_cases hgu : ctx.gid ≠ -1 ∨ ctx.uid ≠ -1
            · by_cases hco : env.chownR s.chownN = true <;>
                simp [safe_mkdir, doMkdir, doStat, doChown, hmk, hst2, hdir2,
                  hgu, hco, hx]
            · simp [safe_mkdir, doMkdir, doStat, hmk, hst2, hdir2, hgu, hx]
        · have hd2 : isDir st2.st_mode = false := by
            revert hdir2
            cases isDir st2.st_mode <;> simp
          constructor
          · simp [safe_mkdir, doMkdir, doStat, hmk, hst2, hd2]
          · intro _
            simp [safe_mkdir, doMkdir, doStat, hmk, hst2, hd2]
    · constructor
      · simp [safe_mkdir, doMkdir, hmk]
      · intro _
        simp [safe_mkdir, doMkdir, hmk]
  · intro st hst hdir hb hwx
    simp only [walkStep, doStat, hst, hdir]
    rcases hcm : env.chmodR s.chmodN with _ | _
    · constructor
      · simp [hdir, hb, hwx, doChmod, hcm]
      · intro hok
        exfalso
        simp [hdir, hb, hwx, doChmod, hcm] at hok
    · constructor
      · simp [hdir, hb, hwx, doChmod, hcm]
      · intro _
        simp [hdir, hb, hwx, doChmod, hcm]
  · intro st hst hdir hb hwx
    simp only [walkStep, doStat, hst]
    simp [hdir, hb, hwx]

/-- Witness for the amended C3: a concrete absent segment under requested
mode `0600` (lacking owner execute): it is created with `0700` and the
reset to `0600` is recorded. -/
theorem C3_temp_perms_test_owner_wx_witness :
    Event.mkdirE "/x".toList 0o700 MkdirRes.ok ∈
      (walkStep envWS ⟨"/x".toList, 0o600, -1, -1, true⟩ "x".toList "/".toList
        false [] OSState.init).s.trace ∧
    ((walkStep envWS ⟨"/x".toList, 0o600, -1, -1, true⟩ "x".toList "/".toList
        false [] OSState.init).ok = true →
      (walkStep envWS ⟨"/x".toList, 0o600, -1, -1, true⟩ "x".toList "/".toList
        false [] OSState.init).resets = [("/x".toList, 0o600)]) :=
  (C3_temp_perms_test_owner_wx envWS ⟨"/x".toList, 0o600, -1, -1, true⟩
    "x".toList "/".toList false [] OSState.init (by decide)).1 rfl (by decide)

/-- C1 (amended): an `ensure_dirs` invocation taking the segment-walk path
drains every recorded `PendingPermissionReset` — the trace ends with a
contiguous block of successful `chmod`s applying the recorded modes in
reverse creation order — whenever the call returns `true`; the drain does
not happen on the `false`-returning failure path (`C1_counterexample`). -/
theorem C1_resets_drained_on_success (env : Env) (cwd path : PyStr)
    (gid uid : Int) (mode : Nat) (minimal : Bool)
    (hwalk : (ensure_dirs env cwd path gid uid mode minimal).tookWalk = true)
    (hret : (ensure_dirs env cwd path gid uid mode minimal).ret = true) :
    ∃ pre post, (ensure_dirs env cwd path gid uid mode minimal).s.trace =
      pre ++ (ensure_dirs env cwd path gid uid mode minimal).resets.reverse.map
        (fun pm => Event.chmodE pm.1 pm.2 true) ++ post := by
  rcases h0 : env.statR 0 with _ | st0
  · rw [ensure_dirs_walk_eq env cwd path gid uid mode minimal h0] at hret ⊢
    replace hret : (edWalk env cwd path gid uid mode).1 = true := hret
    obtain ⟨pre, post, hp⟩ := edWalk_drain env cwd path gid uid mode hret
    exact ⟨pre, post, hp⟩
  · exfalso
    simp [ensure_dirs, doStat, OSState.init, h0] at hwalk

/-- Witness for the amended C1: a run over `envC1ok` that records the
reset for `/a` and returns `true`, with the drained trace shape. -/
theorem C1_resets_drained_on_success_witness :
    ∃ pre post,
      (ensure_dirs envC1ok [] "/a/b".toList (-1) (-1) 0o777 true).s.trace =
        pre ++ (ensure_dirs envC1ok [] "/a/b".toList
            (-1) (-1) 0o777 true).resets.reverse.map
          (fun pm => Event.chmodE pm.1 pm.2 true) ++ post :=
  C1_resets_drained_on_success envC1ok [] "/a/b".toList (-1) (-1) 0o777 true
    (by decide) (by decide)

/-- C2 (amended): during the segment walk a component observed as a
non-directory is a hard failure with nothing done to it — the call returns
`false`, and after the `stat` that observed the non-directory the only
remaining event is the umask restore, so in particular the non-directory
is never `chmod`'ed or `chown`'ed once observed (equivalently, a
`true`-returning walk observed only directories); but a full target path
that already exists as a non-directory is handled by the fast branch,
which returns `true` and may `chmod`/`chown` the non-directory
(`C2_counterexample`). -/
theorem C2_walk_nondir_behavior (env : Env) (cwd path : PyStr)
    (gid uid : Int) (mode : Nat) (minimal : Bool) :
    ((ensure_dirs env cwd path gid uid mode minimal).tookWalk = true →
      (ensure_dirs env cwd path gid uid mode minimal).ret = true →
      ∀ q st, Event.statE q (some st) ∈
          (ensure_dirs env cwd path gid uid mode minimal).s.trace →
        isDir st.st_mode = true) ∧
    ((ensure_dirs env cwd path gid uid mode minimal).tookWalk = true →
      ∀ q st, Event.statE q (some st) ∈
          (ensure_dirs env cwd path gid uid mode minimal).s.trace →
        ¬ isDir st.st_mode = true →
        (ensure_dirs env cwd path gid uid mode minimal).ret = false ∧
        ∃ pre a r, (ensure_dirs env cwd path gid uid mode minimal).s.trace =
          pre ++ [Event.statE q (some st), Event.umaskE a r]) := by
  constructor
  · intro hwalk hret q st hm
    rcases h0 : env.statR 0 with _ | st0
    · rw [ensure_dirs_walk_eq env cwd path gid uid mode minimal h0] at hret hm
      replace hret : (edWalk env cwd path gid uid mode).1 = true := hret
      replace hm : Event.statE q (some st) ∈
        (edWalk env cwd path gid uid mode).2.2.trace := hm
      obtain ⟨Δ, hΔ, g⟩ := edWalk_good env cwd path gid uid mode hret
      rw [hΔ] at hm
      rcases List.mem_append.mp hm with hm | hm
      · simp at hm
      · exact g q st hm
    · exfalso
      simp [ensure_dirs, doStat, OSState.init, h0] at hwalk
  · intro hwalk q st hm hnd
    rcases h0 : env.statR 0 with _ | st0
    · rw [ensure_dirs_walk_eq env cwd path gid uid mode minimal h0] at hm ⊢
      replace hm : Event.statE q (some st) ∈
        (edWalk env cwd path gid uid mode).2.2.trace := hm
      obtain ⟨hfalse, pre, a, r, hpre⟩ :=
        edWalk_nondir env cwd path gid uid mode q st hm hnd
      exact ⟨hfalse, pre, a, r, hpre⟩
    · exfalso
      simp [ensure_dirs, doStat, OSState.init, h0] at hwalk

/-- Witness for the amended C2: in the `envC2w` walk the component `/a`
is observed as the regular file `stFile`; the invocation returns `false`
and the trace ends right at that observation followed only by the umask
restore (first conjunct), while in the successful `envC1ok` walk the
observed root entry is a directory (second conjunct). -/
theorem C2_walk_nondir_behavior_witness :
    ((ensure_dirs envC2w [] "/a/b".toList (-1) (-1) 0o755 true).ret = false ∧
     ∃ pre a r, (ensure_dirs envC2w [] "/a/b".toList (-1) (-1) 0o755 true).s.trace =
       pre ++ [Event.statE "/a".toList (some stFile), Event.umaskE a r]) ∧
    isDir stRoot.st_mode = true :=
  ⟨(C2_walk_nondir_behavior envC2w [] "/a/b".toList (-1) (-1) 0o755 true).2
     (by decide) "/a".toList stFile (by decide) (by decide),
   (C2_walk_nondir_behavior envC1ok [] "/a/b".toList (-1) (-1) 0o777 true).1
     (by decide) (by decide) "/".toList stRoot (by decide)⟩

end Snakeoil
